import Mathlib

/-!
Verification development for the `langth` speech-therapy sentence backend
(`backend/app`): a shallow embedding, in Lean, of the deterministic
validation / scoring / diversification pipeline, together with theorems
settling the specification's claims about it.

Modelling conventions:
* Python strings are modelled as `List Char` (`Str`); whitespace and
  punctuation sets are the ASCII ones actually occurring in the data.
* Python `float` arithmetic is modelled exactly over `ℚ`; `round(x, n)`
  is modelled as round-half-up to `n` decimals.
* External collaborators (the LLM generation call, the CMUdict/G2P English
  pronunciation lookup, the Korean frequency JSON table, wall-clock time,
  uuid generation) are parameters of the embedding, never stubs of code
  that lives in the repository.
-/

set_option maxHeartbeats 1000000

namespace Langth

/-- Python strings are modelled as lists of unicode characters. -/
abbrev Str := List Char

/-- Coerce a Lean string literal to the `Str` representation. -/
def lit (s : String) : Str := s.toList

/-- ASCII whitespace set used to model Python `str.split()` / `str.strip()`
and the regex class `\s`. -/
def isWs (c : Char) : Bool :=
  c = ' ' || c = '\t' || c = '\n' || c = '\r' || c = '\x0b' || c = '\x0c'

/-- Remove leading characters satisfying `p` (Python `lstrip`). -/
def stripLead (p : Char → Bool) (s : Str) : Str := s.dropWhile p

/-- Remove trailing characters satisfying `p` (Python `rstrip`). -/
def stripEnd (p : Char → Bool) (s : Str) : Str :=
  (s.reverse.dropWhile p).reverse

/-- Remove leading and trailing characters satisfying `p` (Python `strip`). -/
def stripBoth (p : Char → Bool) (s : Str) : Str :=
  stripEnd p (stripLead p s)

/-- Split at every whitespace character, keeping empty segments; helper for
the model of Python `str.split()`. -/
def rawSplit : Str → List Str
  | [] => [[]]
  | c :: rest =>
    if isWs c then [] :: rawSplit rest
    else
      match rawSplit rest with
      | t :: ts => (c :: t) :: ts
      | [] => [[c]]

/-- Python `str.split()` (no argument): whitespace-separated tokens, empty
segments discarded. -/
def splitWs (s : Str) : List Str :=
  (rawSplit s).filter (fun t => !t.isEmpty)

/-- Python `sep.join(parts)` for a single-character separator. -/
def joinSep (sep : Char) : List Str → Str
  | [] => []
  | [t] => t
  | t :: rest => t ++ sep :: joinSep sep rest

/-- Python `suffix in string`-style containment of `pat` as a contiguous
infix, used to model substring tests on failure reasons. -/
def isSubstr (pat s : Str) : Bool :=
  (List.range (s.length + 1)).any (fun i => pat.isPrefixOf (s.drop i))

/-- Count non-overlapping left-to-right occurrences of the (non-empty)
literal `pat` in `s`; models `len(re.findall(re.escape(pat), s))`. -/
def countOccs (pat : Str) (s : Str) : ℕ :=
  if pat.isEmpty then 0
  else
    match s with
    | [] => 0
    | c :: rest =>
      if pat.isPrefixOf (c :: rest) then 1 + countOccs pat (rest.drop (pat.length - 1))
      else countOccs pat rest
termination_by s.length
decreasing_by
  · simp only [List.length_cons, List.length_drop]
    omega
  · simp

section Enums

/-- Request language (`Language` in `api/v2/schemas.py`). -/
inductive Language where
  | ko
  | en
deriving DecidableEq, Repr

/-- Therapy approach (`TherapyApproach` in `api/v2/schemas.py`). -/
inductive TherapyApproach where
  | minimal_pairs
  | maximal_oppositions
  | complexity
  | core_vocabulary
deriving DecidableEq, Repr

/-- Diagnosis type (`DiagnosisType` in `api/v2/schemas.py`). -/
inductive DiagnosisType where
  | SSD
  | ASD
  | LD
deriving DecidableEq, Repr

/-- Communicative function (`CommunicativeFunction` in `api/v2/schemas.py`). -/
inductive CommunicativeFunction where
  | request
  | reject
  | help
  | choice
  | attention
  | question
deriving DecidableEq, Repr

/-- Phoneme syllable position (`PhonemePosition` in `api/v2/schemas.py`). -/
inductive PhonemePosition where
  | onset
  | nucleus
  | coda
  | any
deriving DecidableEq, Repr

/-- Allowed values of `DifficultyLevel` (`easy` / `medium` / `hard`). -/
def allowedDifficulties : List Str := [lit "easy", lit "medium", lit "hard"]

/-- Target phoneme configuration (`TargetConfig`). -/
structure TargetConfig where
  phoneme : Str
  position : PhonemePosition
  minOccurrences : ℕ
deriving DecidableEq, Repr

/-- Generation request (`GenerateRequestV2`): the fields the pipeline core
reads. Pydantic field validation happens before the pipeline and is not
needed by the claims. -/
structure GenerateRequestV2 where
  language : Language
  age : ℕ
  count : ℕ
  target : Option TargetConfig
  sentenceLength : ℕ
  diagnosis : DiagnosisType
  therapyApproach : TherapyApproach
  theme : Option Str
  communicativeFunction : Option CommunicativeFunction
  core_words : Option (List Str)
deriving DecidableEq, Repr

end Enums

section KoreanPhoneme

/-- Initial-consonant (onset) table for Hangul syllable blocks. -/
def choList : List Char :=
  [ 'ㄱ', 'ㄲ', 'ㄴ', 'ㄷ', 'ㄸ', 'ㄹ', 'ㅁ', 'ㅂ', 'ㅃ', 'ㅅ',
    'ㅆ', 'ㅇ', 'ㅈ', 'ㅉ', 'ㅊ', 'ㅋ', 'ㅌ', 'ㅍ', 'ㅎ' ]

/-- Vowel (nucleus) table for Hangul syllable blocks. -/
def jungList : List Char :=
  [ 'ㅏ', 'ㅐ', 'ㅑ', 'ㅒ', 'ㅓ', 'ㅔ', 'ㅕ', 'ㅖ', 'ㅗ', 'ㅘ',
    'ㅙ', 'ㅚ', 'ㅛ', 'ㅜ', 'ㅝ', 'ㅞ', 'ㅟ', 'ㅠ', 'ㅡ', 'ㅢ', 'ㅣ' ]

/-- Final-consonant (coda) table for Hangul syllable blocks; index 0 means
no coda and is rendered as the empty string by `decompose_hangul`. -/
def jongList : List Str :=
  [ [], ['ㄱ'], ['ㄲ'], ['ㄳ'], ['ㄴ'], ['ㄵ'], ['ㄶ'], ['ㄷ'], ['ㄹ'], ['ㄺ'],
    ['ㄻ'], ['ㄼ'], ['ㄽ'], ['ㄾ'], ['ㄿ'], ['ㅀ'], ['ㅁ'], ['ㅂ'], ['ㅄ'], ['ㅅ'],
    ['ㅆ'], ['ㅇ'], ['ㅈ'], ['ㅊ'], ['ㅋ'], ['ㅌ'], ['ㅍ'], ['ㅎ'] ]

/-- Model of `decompose_hangul` (`services/phoneme/korean.py`), which wraps
`hgtk.letter.decompose`: a composed Hangul syllable block (U+AC00..U+D7A3)
splits into (onset, nucleus, coda); a bare compatibility jamo decomposes to
itself with empty nucleus/coda; anything else raises in `hgtk`, which the
wrapper turns into `None`. -/
def decompose_hangul (c : Char) : Option (Str × Str × Str) :=
  let n := c.toNat
  if 0xAC00 ≤ n ∧ n ≤ 0xD7A3 then
    let k := n - 0xAC00
    some ([choList.getD (k / 588) ' '], [jungList.getD ((k / 28) % 21) ' '],
      jongList.getD (k % 28) [])
  else if 0x3131 ≤ n ∧ n ≤ 0x3163 then
    some ([c], [], [])
  else
    none

/-- The onset filler / coda-ŋ symbol. -/
def ieungStr : Str := lit "ㅇ"

/-- Model of `has_phoneme_at_position` (`services/phoneme/korean.py`): scan
the word's characters; the onset filler `ㅇ` never matches as onset, while
coda `ㅇ` matches in `coda` and `any` positions. -/
def has_phoneme_at_position (word : Str) (phoneme : Str)
    (position : PhonemePosition) : Bool :=
  match word with
  | [] => false
  | c :: rest =>
    match decompose_hangul c with
    | none => has_phoneme_at_position rest phoneme position
    | some (cho, jung, jong) =>
      if phoneme = ieungStr then
        match position with
        | .onset => false
        | .coda => jong = ieungStr || has_phoneme_at_position rest phoneme position
        | .any => jong = ieungStr || has_phoneme_at_position rest phoneme position
        | .nucleus => has_phoneme_at_position rest phoneme position
      else
        match position with
        | .onset => cho = phoneme || has_phoneme_at_position rest phoneme position
        | .nucleus => jung = phoneme || has_phoneme_at_position rest phoneme position
        | .coda => jong = phoneme || has_phoneme_at_position rest phoneme position
        | .any =>
          (cho = phoneme || jung = phoneme || jong = phoneme)
            || has_phoneme_at_position rest phoneme position

/-- Phoneme match result (`PhonemeMatchResult`). -/
structure PhonemeMatchResult where
  matched_words : List Str
  count : ℕ
  meets_minimum : Bool
deriving DecidableEq, Repr

/-- Model of `find_phoneme_matches` (`services/phoneme/korean.py`):
whole-word granularity collection of words containing the phoneme at the
requested position. -/
def find_phoneme_matches (sentence : Str) (phoneme : Str)
    (position : PhonemePosition) (min_occurrences : ℕ) : PhonemeMatchResult :=
  let matched := (splitWs sentence).filter
    (fun w => has_phoneme_at_position w phoneme position)
  { matched_words := matched
    count := matched.length
    meets_minimum := decide (min_occurrences ≤ matched.length) }

end KoreanPhoneme

section CoreVocabulary

/-- ASCII punctuation set (Python `string.punctuation`). The apostrophe,
backtick, brace and tilde characters are written by code point. -/
def punctuationChars : Str :=
  lit "!\"#$%&()*+,-./:;<=>?@[\\]^_" ++
    [Char.ofNat 39, Char.ofNat 96, Char.ofNat 123, Char.ofNat 124,
     Char.ofNat 125, Char.ofNat 126]

/-- Membership in the ASCII punctuation set. -/
def isPunct (c : Char) : Bool := punctuationChars.contains c

/-- Model of `_normalize_token` (`agents/tools/validate.py`): strip
surrounding ASCII punctuation; lowercase for English only. -/
def normalize_token (token : Str) (language : Language) : Str :=
  let cleaned := stripBoth isPunct token
  if language = .en then cleaned.map Char.toLower else cleaned

/-- Default core words (`DEFAULT_CORE_WORDS` in
`services/lexical/core_vocabulary.py`). -/
def DEFAULT_CORE_WORDS (language : Language) : List Str :=
  match language with
  | .ko => [lit "더", lit "또", lit "아니", lit "네", lit "싫어",
            lit "줘", lit "이거", lit "저거", lit "뭐", lit "어디"]
  | .en => [lit "more", lit "want", lit "no", lit "yes", lit "help",
            lit "go", lit "stop", lit "my", lit "that", lit "what"]

/-- Model of `normalize_core_words`: whitespace-strip each word, drop empty
results, deduplicate keeping first occurrences. -/
def normalize_core_words (core_words : Option (List Str)) : List Str :=
  match core_words with
  | none => []
  | some ws =>
    ws.foldl
      (fun acc w =>
        let cw := stripBoth isWs w
        if cw.isEmpty then acc
        else if acc.contains cw then acc
        else acc ++ [cw])
      []

/-- Model of `resolve_core_words`: the cleaned explicit list when non-empty,
else the language default. The unsupported-language `ValueError` branch is
unreachable for the typed `Language` enum and is not modelled. -/
def resolve_core_words (language : Language) (core_words : Option (List Str)) :
    List Str :=
  let cleaned := normalize_core_words core_words
  if cleaned.isEmpty then DEFAULT_CORE_WORDS language else cleaned

/-- Model of `_contains_core_word` (`agents/tools/validate.py`): set
intersection of normalized sentence tokens with normalized core words,
empty strings discarded on both sides. -/
def contains_core_word (words : List Str) (core_words : List Str)
    (language : Language) : Bool :=
  if core_words.isEmpty then false
  else
    let nw := ((words.filter (fun w => !w.isEmpty)).map
      (fun w => normalize_token w language)).filter (fun w => !w.isEmpty)
    let nc := ((core_words.filter (fun w => !w.isEmpty)).map
      (fun w => normalize_token w language)).filter (fun w => !w.isEmpty)
    nw.any (fun w => nc.contains w)

end CoreVocabulary

section DiversifyDefs

/-- Korean trailing-particle table of `agents/tools/diversify.py`
(`_KOREAN_PARTICLES`), in source order. -/
def KOREAN_PARTICLES : List Str :=
  [lit "이랑", lit "랑", lit "으로", lit "로", lit "까지", lit "부터",
   lit "처럼", lit "같이", lit "에게", lit "께", lit "한테", lit "에서",
   lit "에게서", lit "으로부터", lit "와", lit "과", lit "이", lit "가",
   lit "을", lit "를", lit "은", lit "는", lit "에", lit "도", lit "만"]

end DiversifyDefs

section ValidatorDefs

/-- Ending patterns `_KO_VERB_ENDINGS` of `agents/tools/validate.py`
(declared in the source for stem extraction; not referenced by the final
validation path). -/
def KO_VERB_ENDINGS : List Str :=
  [lit "습니다", lit "ㅂ니다", lit "어요", lit "아요", lit "여요", lit "에요",
   lit "예요", lit "었어", lit "았어", lit "였어", lit "겠어", lit "을래",
   lit "ㄹ래", lit "하게", lit "하고", lit "해서", lit "하면", lit "해요",
   lit "했어", lit "어서", lit "아서", lit "으면", lit "면", lit "고",
   lit "게", lit "지", lit "는", lit "은", lit "ㄴ", lit "을", lit "ㄹ"]

/-- Stem groups `_KO_STEM_GROUPS`: representative stem with its surface
forms, in source (insertion) order. -/
def KO_STEM_GROUPS : List (Str × List Str) :=
  [ (lit "맛있", [lit "맛있"]), (lit "맛없", [lit "맛없"]),
    (lit "예쁘", [lit "예쁘", lit "예쁜", lit "예뻐"]),
    (lit "이쁘", [lit "이쁘", lit "이쁜", lit "이뻐"]),
    (lit "좋", [lit "좋"]), (lit "싫", [lit "싫"]),
    (lit "크", [lit "크", lit "큰", lit "커"]),
    (lit "작", [lit "작"]), (lit "많", [lit "많"]), (lit "적", [lit "적"]),
    (lit "높", [lit "높"]), (lit "낮", [lit "낮"]), (lit "길", [lit "길"]),
    (lit "짧", [lit "짧"]), (lit "넓", [lit "넓"]), (lit "좁", [lit "좁"]),
    (lit "빠르", [lit "빠르", lit "빠른", lit "빨라"]),
    (lit "느리", [lit "느리", lit "느린", lit "느려"]),
    (lit "무겁", [lit "무겁", lit "무거운", lit "무거워"]),
    (lit "가볍", [lit "가볍", lit "가벼운", lit "가벼워"]),
    (lit "뜨겁", [lit "뜨겁", lit "뜨거운", lit "뜨거워"]),
    (lit "차갑", [lit "차갑", lit "차가운", lit "차가워"]),
    (lit "재미있", [lit "재미있"]), (lit "재미없", [lit "재미없"]),
    (lit "귀엽", [lit "귀엽", lit "귀여운", lit "귀여워"]),
    (lit "무섭", [lit "무섭", lit "무서운", lit "무서워"]),
    (lit "슬프", [lit "슬프", lit "슬픈", lit "슬퍼"]),
    (lit "기쁘", [lit "기쁘", lit "기쁜", lit "기뻐"]) ]

/-- Model of `_extract_korean_stems`: for each stem group, count substring
occurrences of all surface forms and emit the representative that many
times, in group order. -/
def extract_korean_stems (text : Str) : List Str :=
  KO_STEM_GROUPS.foldl
    (fun acc g =>
      let count := g.2.foldl (fun n v => n + countOccs v text) 0
      acc ++ List.replicate count g.1)
    []

/-- Model of `_check_semantic_repetition`: for Korean, the first stem (in
group order) whose surface forms collectively occur at least twice. -/
def check_semantic_repetition (sentence : Str) (language : Language) :
    Option Str :=
  if language = .ko then
    let stems := extract_korean_stems sentence
    stems.eraseDups.find? (fun s => decide (2 ≤ stems.count s))
  else none

/-- Predicate ending patterns `_KO_PREDICATE_ENDINGS`. -/
def KO_PREDICATE_ENDINGS : List Str :=
  [lit "요", lit "어", lit "아", lit "야", lit "지", lit "래", lit "자",
   lit "다", lit "네", lit "나",
   lit "줘", lit "봐", lit "워", lit "써", lit "해", lit "게", lit "고",
   lit "며", lit "면",
   lit "어!", lit "아!", lit "야!", lit "다!", lit "지!", lit "래!",
   lit "요!", lit "네!", lit "자!",
   lit "어?", lit "아?", lit "야?", lit "지?", lit "래?", lit "요?",
   lit "나?", lit "니?",
   lit "어~", lit "아~", lit "야~", lit "다~", lit "요~",
   lit "습니다", lit "ㅂ니다", lit "세요", lit "셔요",
   lit "니", lit "냐", lit "까"]

/-- Trailing punctuation set stripped before the last-token predicate
check (`rstrip("!?~.")`). -/
def isTrailPunct (c : Char) : Bool := c = '!' || c = '?' || c = '~' || c = '.'

/-- Model of `_check_has_predicate`: a Korean sentence must end in a
recognized predicate ending, directly or after stripping trailing
punctuation from its last token; non-Korean sentences pass. -/
def check_has_predicate (sentence : Str) (language : Language) : Bool :=
  if language = .ko then
    let text := stripBoth isWs sentence
    if KO_PREDICATE_ENDINGS.any (fun e => e.isSuffixOf text) then true
    else
      match (splitWs text).getLast? with
      | some lw =>
        let lw := stripEnd isTrailPunct lw
        KO_PREDICATE_ENDINGS.any (fun e => e.isSuffixOf lw)
      | none => false
  else true

/-- Regex class `[가-힣]` (composed Hangul syllable blocks). -/
def isHangulSyl (c : Char) : Bool :=
  0xAC00 ≤ c.toNat && c.toNat ≤ 0xD7A3

/-- Regex class `\w` restricted to the character repertoire of the
spacing-anti-pattern check: alphanumerics, underscore, Hangul syllables and
compatibility jamo. -/
def isWordChar (c : Char) : Bool :=
  c.isAlphanum || c = '_' || isHangulSyl c ||
    (0x3131 ≤ c.toNat && c.toNat ≤ 0x3163)

/-- Regex `\b` right after a word character: the rest of the string must
not start with a word character. -/
def boundaryAt (s : Str) : Bool :=
  match s with
  | [] => true
  | c :: _ => !isWordChar c

/-- Match one of the literal alternatives followed by a word boundary. -/
def litAltWb (alts : List Str) (s : Str) : Bool :=
  alts.any (fun a => a.isPrefixOf s && boundaryAt (s.drop a.length))

/-- Regex `\s+` (one or more whitespace characters, greedy). -/
def dropWsPlus (s : Str) : Option Str :=
  match s with
  | [] => none
  | c :: rest => if isWs c then some (rest.dropWhile isWs) else none

/-- First spacing anti-pattern of `_has_korean_spacing_antipattern`
anchored at the start of `s`:
`(뭐|왜|어디|누구|이거|저거|그거|여기|거기)\s+(야|니|냐|지|죠)\b`. -/
def spacingP1At (s : Str) : Bool :=
  [lit "뭐", lit "왜", lit "어디", lit "누구", lit "이거", lit "저거",
   lit "그거", lit "여기", lit "거기"].any
    (fun a =>
      a.isPrefixOf s &&
        (match dropWsPlus (s.drop a.length) with
         | some r => litAltWb [lit "야", lit "니", lit "냐", lit "지", lit "죠"] r
         | none => false))

/-- Expanded literal alternatives of the second spacing anti-pattern's verb
group `줘(?:요)?|줬(?:어|어요)|줄(?:래|게|까)|주(?:라|면|고|지|세요)`, longer
expansions first. -/
def spacingP2Forms : List Str :=
  [lit "줘요", lit "줘", lit "줬어요", lit "줬어", lit "줄래", lit "줄게",
   lit "줄까", lit "주라", lit "주면", lit "주고", lit "주지", lit "주세요"]

/-- Expanded literal alternatives of the third pattern's `봐(?:요|줘|라|)`. -/
def spacingP3Forms : List Str :=
  [lit "봐요", lit "봐줘", lit "봐라", lit "봐"]

/-- Second/third spacing anti-patterns anchored at the start of `s`:
a Hangul-syllable run, whitespace, then a verb form with word boundary. -/
def spacingHangulRunAt (forms : List Str) (s : Str) : Bool :=
  match s with
  | [] => false
  | c :: _ =>
    isHangulSyl c &&
      (let run := s.takeWhile isHangulSyl
       match dropWsPlus (s.drop run.length) with
       | some r => litAltWb forms r
       | none => false)

/-- Model of `_has_korean_spacing_antipattern`: any of the three regexes
matches anywhere in the sentence. -/
def has_korean_spacing_antipattern (sentence : Str) : Bool :=
  (List.range (sentence.length + 1)).any
    (fun i =>
      let s := sentence.drop i
      spacingP1At s || spacingHangulRunAt spacingP2Forms s ||
        spacingHangulRunAt spacingP3Forms s)

/-- Decimal digit rendering helper for failure-reason strings. -/
def natStrAux : ℕ → ℕ → Str
  | 0, _ => []
  | fuel + 1, n =>
    if n < 10 then [Char.ofNat (48 + n)]
    else natStrAux fuel (n / 10) ++ [Char.ofNat (48 + n % 10)]

/-- Decimal rendering of a natural number (Python `str(n)` / f-string). -/
def natStr (n : ℕ) : Str := natStrAux (n + 1) n

/-- The `word_count` failure reason f-string. -/
def wordCountReason (expected got : ℕ) : Str :=
  lit "word_count: expected " ++ natStr expected ++ lit ", got " ++ natStr got

/-- The `semantic_repetition` failure reason f-string. -/
def semanticRepetitionReason (stem : Str) : Str :=
  lit "semantic_repetition: " ++ [Char.ofNat 39] ++ stem ++ [Char.ofNat 39] ++
    lit " appears multiple times"

/-- The `no_predicate` failure reason. -/
def noPredicateReason : Str :=
  lit "no_predicate: sentence lacks a predicate (verb/adjective)"

/-- The `core_vocabulary` spacing failure reason. -/
def coreSpacingReason : Str := lit "core_vocabulary: spacing anti-pattern"

/-- The `core_vocabulary` missing-core-word failure reason. -/
def coreMissingReason : Str := lit "core_vocabulary: missing core word"

/-- The `phoneme` failure reason f-string. -/
def phonemeReason (found need : ℕ) : Str :=
  lit "phoneme: found " ++ natStr found ++ lit ", need " ++ natStr need

/-- Model of `has_target_phoneme` (`services/phoneme/english.py`),
parameterized by the external CMUdict/G2P pronunciation oracle
`getPhonemes` (an external collaborator: dictionary plus predictive model,
stress digits already stripped as in `get_phonemes`). -/
def has_target_phoneme (getPhonemes : Str → List Str) (word : Str)
    (target : Str) : Bool :=
  (getPhonemes word).contains (target.map Char.toUpper)

/-- Model of `find_phoneme_matches_en`: whitespace-split words, keep only
alphabetic characters, collect lowercased words containing the target. -/
def find_phoneme_matches_en (getPhonemes : Str → List Str) (sentence : Str)
    (target : Str) (min_occurrences : ℕ) : PhonemeMatchResult :=
  let matched := (splitWs sentence).foldl
    (fun acc w =>
      let clean := w.filter Char.isAlpha
      if !clean.isEmpty && has_target_phoneme getPhonemes clean target then
        acc ++ [clean.map Char.toLower]
      else acc)
    []
  { matched_words := matched
    count := matched.length
    meets_minimum := decide (min_occurrences ≤ matched.length) }

/-- Validation result (`ValidationResult` in `agents/tools/validate.py`). -/
structure ValidationResult where
  sentence : Str
  passed : Bool
  matched_words : List Str
  word_count : ℕ
  difficulty : Option Str
  fail_reason : Option Str
deriving DecidableEq, Repr

/-- Model of `_validate_single`: length, semantic-repetition, predicate,
then the approach-specific branch (core-vocabulary checks or phoneme
matching), short-circuiting on first failure. -/
def validate_single (getPhonemes : Str → List Str) (sentence : Str)
    (request : GenerateRequestV2) (difficulty : Option Str) :
    ValidationResult :=
  let words := splitWs (stripBoth isWs sentence)
  let word_count := words.length
  if word_count ≠ request.sentenceLength then
    ⟨sentence, false, [], word_count, difficulty,
      some (wordCountReason request.sentenceLength word_count)⟩
  else
    match check_semantic_repetition sentence request.language with
    | some stem =>
      ⟨sentence, false, [], word_count, difficulty,
        some (semanticRepetitionReason stem)⟩
    | none =>
      if word_count ≤ 3 && !check_has_predicate sentence request.language then
        ⟨sentence, false, [], word_count, difficulty, some noPredicateReason⟩
      else if request.therapyApproach = .core_vocabulary then
        if request.language = .ko && has_korean_spacing_antipattern sentence then
          ⟨sentence, false, [], word_count, difficulty, some coreSpacingReason⟩
        else
          let core := resolve_core_words request.language request.core_words
          if !contains_core_word words core request.language then
            ⟨sentence, false, [], word_count, difficulty,
              some coreMissingReason⟩
          else
            ⟨sentence, true, [], word_count, difficulty, none⟩
      else
        match request.target with
        | some target =>
          if !target.phoneme.isEmpty then
            let mr :=
              if request.language = .ko then
                find_phoneme_matches sentence target.phoneme target.position
                  target.minOccurrences
              else
                find_phoneme_matches_en getPhonemes sentence target.phoneme
                  target.minOccurrences
            if !mr.meets_minimum then
              ⟨sentence, false, mr.matched_words, word_count, difficulty,
                some (phonemeReason mr.count target.minOccurrences)⟩
            else
              ⟨sentence, true, mr.matched_words, word_count, difficulty, none⟩
          else
            ⟨sentence, true, [], word_count, difficulty, none⟩
        | none => ⟨sentence, true, [], word_count, difficulty, none⟩

/-- A Python value that may or may not be a string: models the dynamically
typed `sentence` / `difficulty` dict entries of raw candidates. -/
inductive PyValue where
  | str (s : Str)
  | nonStr
deriving DecidableEq, Repr

/-- Raw generation candidate before normalization: a plain string, a dict
(with optional `sentence` / `difficulty` keys), or any other value. -/
inductive RawCandidate where
  | str (s : Str)
  | dict (sentence : Option PyValue) (difficulty : Option PyValue)
  | nonDict
deriving DecidableEq, Repr

/-- The normalization loop body of `validate_sentences`: keep strings and
dicts with a string `sentence` value; blank out disallowed or non-string
difficulties. -/
def normalize_candidate (item : RawCandidate) : Option (Str × Option Str) :=
  match item with
  | .str s => some (s, none)
  | .dict sv dv =>
    match sv with
    | some (.str s) =>
      let d : Option Str :=
        match dv with
        | some (.str d) => if allowedDifficulties.contains d then some d else none
        | _ => none
      some (s, d)
    | _ => none
  | .nonDict => none

/-- Model of `validate_sentences`: normalize candidates, then validate each
surviving one in order. -/
def validate_sentences (getPhonemes : Str → List Str)
    (sentences : List RawCandidate) (request : GenerateRequestV2) :
    List ValidationResult :=
  let normalized := sentences.filterMap normalize_candidate
  normalized.map (fun p => validate_single getPhonemes p.1 request p.2)

/-- Claim-side projection used by C9: the sentence retained from a raw
candidate (a plain string, or a dict whose `sentence` value is a string). -/
def keptSentence (item : RawCandidate) : Option Str :=
  match item with
  | .str s => some s
  | .dict (some (.str s)) _ => some s
  | _ => none

/-- Validated-sentence dict produced by `get_passed_sentences`. -/
structure ValidatedItem where
  sentence : Str
  matched_words : List Str
  word_count : ℕ
  difficulty : Option Str
deriving DecidableEq, Repr

/-- Model of `get_passed_sentences`: project passing results. -/
def get_passed_sentences (results : List ValidationResult) :
    List ValidatedItem :=
  (results.filter (fun r => r.passed)).map
    (fun r => ⟨r.sentence, r.matched_words, r.word_count, r.difficulty⟩)

end ValidatorDefs

section ScorerDefs

/-- Stable insertion into a sorted-so-far list: `x` is placed before the
first element strictly after it (`le x y` but not `le y x`), so elements
comparing equal keep their original relative order. -/
def stableInsert (le : α → α → Bool) (x : α) : List α → List α
  | [] => [x]
  | y :: ys =>
    if le x y && !le y x then x :: y :: ys else y :: stableInsert le x ys

/-- Stable sort by the boolean preorder `le`: the unique stable sort, used
to model Python's stable `list.sort` / `sorted` (with `reverse=True`
expressed through `le`). -/
def stableSortBy (le : α → α → Bool) (l : List α) : List α :=
  l.foldl (fun acc x => stableInsert le x acc) []

/-- Association lookup in the frequency table (Python dict membership). -/
def lookupAssoc (data : List (Str × ℤ)) (k : Str) : Option ℤ :=
  (data.find? (fun p => p.1 = k)).map (fun p => p.2)

/-- Longest-prefix search of `get_word_frequency`
(`services/corpus/korean_freq.py`), from full length down to one
character. -/
def gwfAux (data : List (Str × ℤ)) (word : Str) : ℕ → Option ℤ
  | 0 => none
  | l + 1 =>
    match lookupAssoc data (word.take (l + 1)) with
    | some v => some v
    | none => gwfAux data word l

/-- Model of `get_word_frequency`, parameterized by the externally loaded
frequency table: longest matching prefix, else the midpoint 50. -/
def get_word_frequency (data : List (Str × ℤ)) (word : Str) : ℤ :=
  (gwfAux data word word.length).getD 50

/-- Model of `get_sentence_frequency_score`: average word frequency over
whitespace tokens, 50 for an empty token list. -/
def get_sentence_frequency_score (data : List (Str × ℤ)) (sentence : Str) :
    ℚ :=
  let words := splitWs sentence
  if words.isEmpty then 50
  else ((words.map (fun w => ((get_word_frequency data w : ℤ) : ℚ))).sum)
    / words.length

/-- Particle table `_KO_PARTICLES` of `agents/tools/score.py`. -/
def KO_PARTICLES : List Str :=
  [lit "은", lit "는", lit "이", lit "가", lit "을", lit "를", lit "에",
   lit "에서", lit "으로", lit "로", lit "와", lit "과", lit "하고",
   lit "이랑", lit "랑", lit "도", lit "만", lit "까지", lit "부터",
   lit "의", lit "에게", lit "한테", lit "께", lit "보다"]

/-- Noun-ending table `_KO_NOUN_ENDINGS` of `agents/tools/score.py`. -/
def KO_NOUN_ENDINGS : List Str :=
  [lit "이", lit "가", lit "은", lit "는", lit "을", lit "를", lit "에",
   lit "에서", lit "으로", lit "로", lit "와", lit "과", lit "도", lit "만",
   lit "의", lit "에게", lit "한테"]

/-- Python `sorted(lst, key=len, reverse=True)`: stable sort by descending
length. -/
def sortByLenDesc (l : List Str) : List Str :=
  stableSortBy (fun a b => decide (b.length ≤ a.length)) l

/-- Model of `_extract_sentence_structure`: coarse per-token syntax tags
(`N<particle>` / `V` / `V<punct>` / `X`), space-joined; non-Korean
sentences are just lowercased. -/
def extract_sentence_structure (sentence : Str) (language : Language) :
    Str :=
  if language ≠ .ko then sentence.map Char.toLower
  else
    let words := splitWs (stripBoth isWs sentence)
    let parts := words.map (fun word =>
      match (sortByLenDesc KO_PARTICLES).find?
          (fun p => p.isSuffixOf word && decide (p.length < word.length)) with
      | some p => lit "N" ++ p
      | none =>
        if [lit "요", lit "어", lit "아", lit "야", lit "다", lit "지",
            lit "네", lit "래"].any (fun e => e.isSuffixOf word) then
          lit "V"
        else if [lit "!", lit "?", lit "~"].any
            (fun e => e.isSuffixOf word) then
          lit "V" ++ [word.getLastD ' ']
        else lit "X")
    joinSep ' ' parts

/-- Model of `_extract_nouns`: strip the longest matching noun ending from
each token, keep remainders of length at least two, as a set (modelled as
a first-occurrence-deduplicated list); non-Korean sentences yield their
lowercased token set. -/
def extract_nouns (sentence : Str) (language : Language) : List Str :=
  if language ≠ .ko then (splitWs (sentence.map Char.toLower)).eraseDups
  else
    let words := splitWs (stripBoth isWs sentence)
    words.foldl
      (fun acc word =>
        let noun :=
          match (sortByLenDesc KO_NOUN_ENDINGS).find?
              (fun e => e.isSuffixOf word && decide (e.length < word.length))
            with
          | some e => word.take (word.length - e.length)
          | none => word
        if decide (2 ≤ noun.length) && !acc.contains noun then acc ++ [noun]
        else acc)
      []

/-- Four-component score breakdown (before the diversity penalty entry is
added). -/
structure Breakdown where
  frequency : ℚ
  function : ℚ
  match_bonus : ℚ
  length_fit : ℚ
deriving DecidableEq, Repr

/-- Final breakdown dict, including the `diversity_penalty` entry. -/
structure BreakdownWithPenalty where
  frequency : ℚ
  function : ℚ
  match_bonus : ℚ
  length_fit : ℚ
  diversity_penalty : ℚ
deriving DecidableEq, Repr

/-- Scored sentence (`ScoredSentence` in `agents/tools/score.py`). -/
structure ScoredSentence where
  sentence : Str
  matched_words : List Str
  word_count : ℕ
  difficulty : Option Str
  score : ℚ
  breakdown : BreakdownWithPenalty
deriving DecidableEq, Repr

/-- Default element for Python-style head access on scored lists. -/
instance : Inhabited ScoredSentence :=
  ⟨⟨[], [], 0, none, 0, ⟨0, 0, 0, 0, 0⟩⟩⟩

/-- Model of `_calculate_diversity_penalty`: compare with up to the first
ten already-accepted sentences; 10 per identical structure signature plus
5 per overlapping noun. -/
def calculate_diversity_penalty (sentence : Str)
    (already_scored : List ScoredSentence) (language : Language) : ℚ :=
  if already_scored.isEmpty then 0
  else
    let current_structure := extract_sentence_structure sentence language
    let current_nouns := extract_nouns sentence language
    (already_scored.take 10).foldl
      (fun penalty scored =>
        let other_structure :=
          extract_sentence_structure scored.sentence language
        let other_nouns := extract_nouns scored.sentence language
        let penalty :=
          if current_structure = other_structure then penalty + 10
          else penalty
        if !current_nouns.isEmpty && !other_nouns.isEmpty then
          penalty +
            ((current_nouns.filter (fun n => other_nouns.contains n)).length
              : ℚ) * 5
        else penalty)
      0

/-- Piece of a communicative-function regex alternative: a literal, or the
`\s*` gap. -/
inductive PatPiece where
  | lit (s : Str)
  | wsStar
deriving DecidableEq, Repr

/-- One alternative of a communicative-function regex: a piece sequence,
optionally anchored at end of string (`$`). -/
structure AltPat where
  pieces : List PatPiece
  atEnd : Bool
deriving DecidableEq, Repr

/-- Match a piece sequence at the start of `s`, returning the rest. -/
def matchPieces : List PatPiece → Str → Option Str
  | [], s => some s
  | .lit a :: rest, s =>
    if a.isPrefixOf s then matchPieces rest (s.drop a.length) else none
  | .wsStar :: rest, s => matchPieces rest (s.dropWhile isWs)

/-- Match one alternative anchored at the start of `s`. -/
def altMatchesAt (p : AltPat) (s : Str) : Bool :=
  match matchPieces p.pieces s with
  | some r => !p.atEnd || r.isEmpty
  | none => false

/-- Model of `re.search` over an alternation of literal/`\s*` patterns:
some alternative matches at some position. -/
def searchPat (alts : List AltPat) (s : Str) : Bool :=
  (List.range (s.length + 1)).any
    (fun i => alts.any (fun a => altMatchesAt a (s.drop i)))

/-- Literal alternative builder. -/
def altL (s : String) : AltPat := ⟨[.lit (lit s)], false⟩

/-- Two literals separated by `\s*`. -/
def altWsGap (a b : String) : AltPat :=
  ⟨[.lit (lit a), .wsStar, .lit (lit b)], false⟩

/-- Model of `FUNCTION_PATTERNS_KO` (`agents/tools/score.py`), with each
regex alternation expanded into alternatives. -/
def FUNCTION_PATTERNS_KO (f : CommunicativeFunction) : List AltPat :=
  match f with
  | .request =>
    [altL "줘", altL "주세요", altL "줄래", altL "싶어", altL "싶어요",
     altWsGap "하고" "싶", altWsGap "먹고" "싶", altWsGap "갖고" "싶"]
  | .reject =>
    [altL "싫어", altL "싫어요", altWsGap "안" "해", altWsGap "안" "할래",
     altWsGap "하기" "싫", altWsGap "안" "먹", altWsGap "안" "갈"]
  | .help =>
    [altL "도와", altL "도와줘", altL "도와주세요", altL "어떻게",
     altL "어떡해", altL "모르겠", altWsGap "못" "하겠"]
  | .choice =>
    [altL "할래?", altL "먹을래?", altL "갈래?", altWsGap "이거" "저거",
     altWsGap "뭐" "할", altWsGap "어떤" "거"]
  | .attention =>
    [altL "봐봐", altWsGap "이거" "봐", altWsGap "저거" "봐",
     altWsGap "여기" "봐", altL "보세요", altL "있어요"]
  | .question =>
    [altL "뭐야", altL "뭐예요", altL "어디", altL "언제", altL "누가",
     altL "왜", altL "어떻게", ⟨[.lit (lit "?")], true⟩]

/-- Score weight vector (the weight dict in `agents/tools/score.py`). -/
structure ScoreWeights where
  frequency : ℚ
  function : ℚ
  match_bonus : ℚ
  length_fit : ℚ
deriving DecidableEq, Repr

/-- Base weights `BASE_SCORE_WEIGHTS`. -/
def BASE_SCORE_WEIGHTS : ScoreWeights := ⟨4/10, 3/10, 2/10, 1/10⟩

/-- Model of `_get_score_weights`: zero out structurally unavailable
sub-scores, then renormalize to sum one (all-zero fallback puts weight one
on `length_fit`; unreachable since `length_fit` is never zeroed). -/
def get_score_weights (request : GenerateRequestV2) : ScoreWeights :=
  let w := BASE_SCORE_WEIGHTS
  let w :=
    if request.language ≠ .ko then { w with frequency := 0, function := 0 }
    else if request.communicativeFunction.isNone then { w with function := 0 }
    else w
  let w :=
    if request.therapyApproach = .core_vocabulary then
      { w with match_bonus := 0 }
    else w
  let total := w.frequency + w.function + w.match_bonus + w.length_fit
  if total ≤ 0 then ⟨0, 0, 0, 1⟩
  else ⟨w.frequency / total, w.function / total, w.match_bonus / total,
    w.length_fit / total⟩

/-- Python `round(x, 2)` over the exact rational model (round half up). -/
def round2 (x : ℚ) : ℚ := ((round (x * 100) : ℤ) : ℚ) / 100

/-- Python `round(x, 1)` over the exact rational model (round half up). -/
def round1 (x : ℚ) : ℚ := ((round (x * 10) : ℤ) : ℚ) / 10

/-- Model of `_calculate_breakdown`: frequency (Korean lookup or the flat
English placeholder 50), communicative-function regex score, capped match
bonus, constant length fit. -/
def calculate_breakdown (data : List (Str × ℤ)) (sentence : Str)
    (matched_words : List Str) (request : GenerateRequestV2) : Breakdown :=
  let frequency : ℚ :=
    if request.language = .ko then get_sentence_frequency_score data sentence
    else 50
  let functionScore : ℚ :=
    match request.communicativeFunction with
    | some f =>
      if request.language = .ko && searchPat (FUNCTION_PATTERNS_KO f) sentence
      then 100 else 0
    | none => 0
  let match_bonus : ℚ := ((min (matched_words.length * 30) 100 : ℕ) : ℚ)
  ⟨round2 frequency, functionScore, match_bonus, 100⟩

/-- Weighted composite of a breakdown, as computed inline in
`score_sentences` before the diversity penalty. -/
def base_composite (w : ScoreWeights) (b : Breakdown) : ℚ :=
  b.frequency * w.frequency + b.function * w.function +
    b.match_bonus * w.match_bonus + b.length_fit * w.length_fit

/-- Intermediate record of the first scoring pass. -/
structure PrelimScored where
  sentence : Str
  matched_words : List Str
  word_count : ℕ
  difficulty : Option Str
  base_score : ℚ
  breakdown : Breakdown
deriving DecidableEq, Repr

/-- Second pass of `score_sentences`: walk the base-score-sorted list,
charging each sentence the diversity penalty against the already accepted
prefix (capped at 50, floored at 0). -/
def divFold (language : Language) :
    List PrelimScored → List ScoredSentence → List ScoredSentence
  | [], _ => []
  | p :: rest, acc =>
    let pen := calculate_diversity_penalty p.sentence acc language
    let s : ScoredSentence :=
      { sentence := p.sentence
        matched_words := p.matched_words
        word_count := p.word_count
        difficulty := p.difficulty
        score := round2 (max 0 (p.base_score - min pen 50))
        breakdown := ⟨p.breakdown.frequency, p.breakdown.function,
          p.breakdown.match_bonus, p.breakdown.length_fit, -(round2 pen)⟩ }
    s :: divFold language rest (acc ++ [s])

/-- Model of `score_sentences`: compute breakdowns and weighted base
scores, sort descending, apply diversity penalties in order, re-sort by
final score. -/
def score_sentences (data : List (Str × ℤ)) (validated : List ValidatedItem)
    (request : GenerateRequestV2) : List ScoredSentence :=
  let prelim := validated.map
    (fun item =>
      let breakdown :=
        calculate_breakdown data item.sentence item.matched_words request
      let weights := get_score_weights request
      ({ sentence := item.sentence
         matched_words := item.matched_words
         word_count := item.word_count
         difficulty := item.difficulty
         base_score := base_composite weights breakdown
         breakdown := breakdown } : PrelimScored))
  let sorted := stableSortBy
    (fun a b => decide (b.base_score ≤ a.base_score)) prelim
  let final := divFold request.language sorted []
  stableSortBy (fun a b => decide (b.score ≤ a.score)) final

end ScorerDefs

section DiversifyMoreDefs

/-- Character class kept by `_normalize_token` of `agents/tools/diversify.py`
(regex `[^0-9A-Za-z가-힣]` is removed). -/
def isDivKeep (c : Char) : Bool :=
  ('0' ≤ c && c ≤ '9') || ('A' ≤ c && c ≤ 'Z') || ('a' ≤ c && c ≤ 'z') ||
    isHangulSyl c

/-- Model of `_strip_korean_particles`: drop the first matching trailing
particle (in table order) when a proper prefix remains. -/
def strip_korean_particles (word : Str) : Str :=
  match KOREAN_PARTICLES.find?
      (fun p => p.isSuffixOf word && decide (p.length < word.length)) with
  | some p => word.take (word.length - p.length)
  | none => word

/-- Model of the diversifier's `_normalize_token`: keep alphanumerics and
Hangul, strip a trailing particle from Korean tokens, lowercase others. -/
def normalize_token_div (token : Str) : Str :=
  let cleaned := token.filter isDivKeep
  if cleaned.isEmpty then []
  else if cleaned.any isHangulSyl then strip_korean_particles cleaned
  else cleaned.map Char.toLower

/-- Model of `_get_pattern`: normalized first matched word, else normalized
first sentence token, else empty. -/
def get_pattern (s : ScoredSentence) : Str :=
  match s.matched_words with
  | w :: _ => normalize_token_div w
  | [] =>
    match splitWs s.sentence with
    | w :: _ => normalize_token_div w
    | [] => []

/-- Model of `_get_start_key`: normalized first sentence token. -/
def get_start_key (s : ScoredSentence) : Str :=
  match splitWs s.sentence with
  | w :: _ => normalize_token_div w
  | [] => []

/-- Common sentence-final endings `_COMMON_ENDINGS`, in source order. -/
def COMMON_ENDINGS : List Str :=
  [lit "해주세요", lit "주세요", lit "할까요", lit "까요", lit "했어요",
   lit "했어", lit "해요", lit "어요", lit "아요", lit "네요", lit "세요",
   lit "죠", lit "요", lit "다"]

/-- Model of `_get_ending_key`: final `?`/`!`, else the longest-listed
common ending of the last token (after dropping trailing periods), else
the last two kept characters. -/
def get_ending_key (s : ScoredSentence) : Str :=
  let text := stripBoth isWs s.sentence
  if text.isEmpty then []
  else if (lit "?").isSuffixOf text then lit "?"
  else if (lit "!").isSuffixOf text then lit "!"
  else
    let text := stripEnd (fun c => c = '.') text
    let words := splitWs text
    let last_word := match words.getLast? with
      | some w => w
      | none => text
    match COMMON_ENDINGS.find? (fun e => e.isSuffixOf last_word) with
    | some e => e
    | none =>
      let normalized := last_word.filter isDivKeep
      if normalized.isEmpty then []
      else if 2 ≤ normalized.length then
        normalized.drop (normalized.length - 2)
      else normalized

/-- Precomputed diversity keys of one candidate (`candidate_keys`). -/
structure DivKeys where
  pattern : Str
  start : Str
  ending : Str
  difficulty : Str
deriving DecidableEq, Repr

/-- The four diversity keys of a scored sentence. -/
def get_keys (s : ScoredSentence) : DivKeys :=
  ⟨get_pattern s, get_start_key s, get_ending_key s,
    s.difficulty.getD (lit "unknown")⟩

/-- Key vector of the candidate at index `i` of the scored list. -/
def divKeysOf (scored : List ScoredSentence) (i : ℕ) : DivKeys :=
  get_keys (scored.getD i default)

/-- Per-difficulty target (`count // 3 if count >= 3 else 1`). -/
def targetPerDifficulty (count : ℕ) : ℕ :=
  if 3 ≤ count then count / 3 else 1

/-- Number of already selected indexes whose key component `f` equals `k`
(the Python counter dicts, reconstructed from the selection list). -/
def countKey (keys : ℕ → DivKeys) (selected : List ℕ) (f : DivKeys → Str)
    (k : Str) : ℕ :=
  (selected.filter (fun i => f (keys i) = k)).length

/-- One scan of the greedy selection loop: among unselected candidates
whose pattern count is below the cap, the first index attaining the
highest penalty-adjusted score. -/
def pickBest (scored : List ScoredSentence) (keys : ℕ → DivKeys)
    (selected : List ℕ) (max_similar target_per_difficulty : ℕ) :
    Option (ℕ × ℚ) :=
  (List.range scored.length).foldl
    (fun best idx =>
      if selected.contains idx then best
      else if max_similar ≤ countKey keys selected
          (fun k => k.pattern) ((keys idx).pattern) then best
      else
        let k := keys idx
        let diff_count := countKey keys selected
          (fun k => k.difficulty) k.difficulty
        let penalty : ℚ :=
          (countKey keys selected (fun k => k.start) k.start : ℕ) * 3
            + (countKey keys selected (fun k => k.ending) k.ending : ℕ) * 4
            + (if target_per_difficulty ≤ diff_count then
                ((diff_count - target_per_difficulty + 1) * 10 : ℕ)
              else 0)
        let adjusted := (scored.getD idx default).score - penalty
        match best with
        | none => some (idx, adjusted)
        | some (bi, ba) =>
          if ba < adjusted then some (idx, adjusted) else some (bi, ba))
    none

/-- The greedy selection loop of `diversify_results`, with the iteration
count as fuel and the selection-order index list as state. -/
def greedyLoop (scored : List ScoredSentence) (keys : ℕ → DivKeys)
    (max_similar target_per_difficulty : ℕ) :
    ℕ → List ℕ → List ℕ
  | 0, selected => selected
  | fuel + 1, selected =>
    match pickBest scored keys selected max_similar target_per_difficulty
      with
    | none => selected
    | some (i, _) =>
      greedyLoop scored keys max_similar target_per_difficulty fuel
        (selected ++ [i])

/-- The full greedy selection of `diversify_results` (index list, in
selection order). -/
def greedySelect (scored : List ScoredSentence) (count max_similar : ℕ) :
    List ℕ :=
  greedyLoop scored (divKeysOf scored) max_similar
    (targetPerDifficulty count) count []

/-- Backfill pass: append not-yet-selected candidates in original order,
ignoring all caps, until `count` is reached. -/
def backfillIdx (totalLen : ℕ) (sel : List ℕ) (count : ℕ) : List ℕ :=
  (List.range totalLen).foldl
    (fun acc idx =>
      if count ≤ acc.length then acc
      else if sel.contains idx then acc
      else acc ++ [idx])
    sel

/-- Model of `diversify_results` (`agents/tools/diversify.py`): return
as-is when the pool is at most `count`; otherwise greedy multi-penalty
selection with pattern cap, then backfill if the loop stalled early. -/
def diversify_results (scored : List ScoredSentence) (count : ℕ)
    (max_similar : ℕ) : List ScoredSentence :=
  if scored.length ≤ count then scored
  else
    let sel := greedySelect scored count max_similar
    let final :=
      if sel.length < count then backfillIdx scored.length sel count
      else sel
    final.map (fun i => scored.getD i default)

end DiversifyMoreDefs

section PipelineDefs

/-- Matched-word span (`MatchedWord` in `api/v2/schemas.py`). -/
structure MatchedWord where
  word : Str
  startIndex : ℕ
  endIndex : ℕ
  positions : List PhonemePosition
deriving DecidableEq, Repr

/-- Python `str.find`: index of the first occurrence of `pat` in `text`,
as an `Option` (the caller only uses the `>= 0` case). -/
def findSub (text pat : Str) : Option ℕ :=
  (List.range (text.length + 1)).find? (fun i => pat.isPrefixOf (text.drop i))

/-- Response item (`TherapyItemV2`), minus the externally generated uuid
`id` field, which is not modelled. -/
structure TherapyItemV2 where
  text : Str
  target : Option TargetConfig
  matchedWords : List MatchedWord
  wordCount : ℕ
  score : ℚ
  difficulty : Option Str
  diagnosis : DiagnosisType
  approach : TherapyApproach
  theme : Option Str
  function : Option CommunicativeFunction
deriving DecidableEq, Repr

/-- Model of `_to_therapy_item`: locate each matched word in the sentence
and echo request metadata. -/
def to_therapy_item (scored : ScoredSentence) (request : GenerateRequestV2) :
    TherapyItemV2 :=
  let matchedWords :=
    match request.target with
    | none => []
    | some t =>
      scored.matched_words.foldl
        (fun acc word =>
          match findSub scored.sentence word with
          | some start =>
            acc ++ [⟨word, start, start + word.length, [t.position]⟩]
          | none => acc)
        []
  { text := scored.sentence
    target := request.target
    matchedWords := matchedWords
    wordCount := scored.word_count
    score := scored.score
    difficulty := scored.difficulty
    diagnosis := request.diagnosis
    approach := request.therapyApproach
    theme := request.theme
    function := request.communicativeFunction }

/-- Pipeline quality metrics (`PipelineMetrics` in `agents/pipeline.py`). -/
structure PipelineMetrics where
  generated_count : ℕ
  validation_passed : ℕ
  validation_rate : ℚ
  fail_reasons : List (Str × ℕ)
  unique_structures : ℕ
  vocabulary_diversity : ℚ
  semantic_duplicates : ℕ
  final_count : ℕ
deriving DecidableEq, Repr

/-- Increment a key of the insertion-ordered fail-reason counter dict. -/
def bumpKey (l : List (Str × ℕ)) (k : Str) : List (Str × ℕ) :=
  if l.any (fun p => p.1 = k) then
    l.map (fun p => if p.1 = k then (p.1, p.2 + 1) else p)
  else l ++ [(k, 1)]

/-- Fail-reason bucketing by substring sniffing, as in
`_calculate_metrics`. -/
def failCategory (reason : Str) : Str :=
  if isSubstr (lit "word_count") reason then lit "word_count"
  else if isSubstr (lit "phoneme") reason then lit "phoneme"
  else if isSubstr (lit "semantic_repetition") reason then
    lit "semantic_repetition"
  else if isSubstr (lit "no_predicate") reason then lit "no_predicate"
  else if isSubstr (lit "core_vocabulary") reason then lit "core_vocabulary"
  else lit "other"

/-- Model of `_calculate_metrics`: pass counts and rate, fail-reason
histogram, structure and vocabulary diversity over the scored pool. -/
def calculate_metrics (all_candidates : List RawCandidate)
    (validation_results : List ValidationResult)
    (scored : List ScoredSentence) (language : Language) : PipelineMetrics :=
  let generated := all_candidates.length
  let passed := (validation_results.filter (fun r => r.passed)).length
  let rate : ℚ := if 0 < generated then (passed : ℚ) / generated * 100 else 0
  let failAcc := validation_results.foldl
    (fun (acc : List (Str × ℕ) × ℕ) r =>
      if !r.passed then
        match r.fail_reason with
        | some reason =>
          let key := failCategory reason
          (bumpKey acc.1 key,
            if key = lit "semantic_repetition" then acc.2 + 1 else acc.2)
        | none => acc
      else acc)
    ([], 0)
  let structures :=
    (scored.map (fun s => extract_sentence_structure s.sentence language))
      |>.eraseDups
  let all_nouns := scored.foldl
    (fun acc s => acc ++ extract_nouns s.sentence language) []
  let vocab : ℚ :=
    if !all_nouns.isEmpty then
      (all_nouns.eraseDups.length : ℚ) / all_nouns.length * 100
    else 0
  ⟨generated, passed, rate, failAcc.1, structures.length, vocab, failAcc.2,
    scored.length⟩

/-- Response meta dict of `run_pipeline`. The `processingTimeMs` wall-clock
entry is not modelled and recorded as `0`. -/
structure PipelineMeta where
  requestedCount : ℕ
  generatedCount : ℕ
  averageScore : ℚ
  processingTimeMs : ℕ
  validationRate : ℚ
  uniqueStructures : ℕ
  vocabularyDiversity : ℚ
deriving DecidableEq, Repr

/-- Pipeline result (`PipelineResult` in `agents/pipeline.py`). The
contrast-set payload of the superseded minimal-pair path is not modelled
(the generator is modelled in its flat candidate-list shape, under which
`contrast_sets` is always `None`). -/
structure PipelineResult where
  success : Bool
  items : List TherapyItemV2
  meta : PipelineMeta
  metrics : PipelineMetrics
deriving DecidableEq, Repr

/-- Accumulated state of the retry loop of `run_pipeline`. -/
structure PipeState where
  all_candidates : List RawCandidate
  all_results : List ValidationResult
  all_validated : List ValidatedItem
deriving DecidableEq, Repr

/-- The bounded retry loop of `run_pipeline`, parameterized by the external
generation call `gen` (attempt index and requested batch size to either an
exception payload or a raw candidate list). An exception is caught and the
loop proceeds to the next attempt with unchanged state. -/
def runAttempts (getPhonemes : Str → List Str) (request : GenerateRequestV2)
    (gen : ℕ → ℕ → Except Str (List RawCandidate))
    (target_candidates : ℕ) : ℕ → ℕ → PipeState → PipeState
  | 0, _, st => st
  | fuel + 1, attempt, st =>
    let batch : ℤ := (target_candidates : ℤ) - st.all_validated.length
    if batch ≤ 0 then st
    else
      let batch_size := 3 * batch.toNat / 2
      match gen attempt batch_size with
      | .error _ =>
        runAttempts getPhonemes request gen target_candidates fuel
          (attempt + 1) st
      | .ok candidates =>
        let results := validate_sentences getPhonemes candidates request
        let passed := get_passed_sentences results
        let st' : PipeState :=
          ⟨st.all_candidates ++ candidates, st.all_results ++ results,
            st.all_validated ++ passed⟩
        if target_candidates ≤ st'.all_validated.length then st'
        else
          runAttempts getPhonemes request gen target_candidates fuel
            (attempt + 1) st'

/-- Model of `run_pipeline`: oversampled generate/validate retry loop, one
scoring pass over the accumulated pool, metrics, and response assembly.
Always returns `success := true`. -/
def run_pipeline (getPhonemes : Str → List Str) (data : List (Str × ℤ))
    (request : GenerateRequestV2)
    (gen : ℕ → ℕ → Except Str (List RawCandidate)) (max_attempts : ℕ) :
    PipelineResult :=
  let target_candidates := request.count * 3
  let st := runAttempts getPhonemes request gen target_candidates
    max_attempts 0 ⟨[], [], []⟩
  let scored := score_sentences data st.all_validated request
  let metrics := calculate_metrics st.all_candidates st.all_results scored
    request.language
  let items := scored.map (fun s => to_therapy_item s request)
  { success := true
    items := items
    meta :=
      ⟨request.count, items.length,
        if !scored.isEmpty then
          round2 ((scored.map (fun s => s.score)).sum / scored.length)
        else 0,
        0, round1 metrics.validation_rate, metrics.unique_structures,
        round1 metrics.vocabulary_diversity⟩
    metrics := metrics }

end PipelineDefs

section ClaimC3

/-- Helper: in `any` position, a search for `ㅇ` succeeds exactly when some
character decomposes with coda `ㅇ`. -/
theorem ieung_any_iff (word : Str) :
    has_phoneme_at_position word ieungStr .any = true ↔
      ∃ c ∈ word, ∃ cho jung, decompose_hangul c = some (cho, jung, ieungStr) := by
  induction word with
  | nil => simp [has_phoneme_at_position]
  | cons c rest ih =>
    cases hd : decompose_hangul c with
    | none =>
      simp only [has_phoneme_at_position, hd, ih, List.mem_cons]
      constructor
      · rintro ⟨x, hx, h⟩
        exact ⟨x, Or.inr hx, h⟩
      · rintro ⟨x, hx | hx, h⟩
        · subst hx
          obtain ⟨cho, jung, hj⟩ := h
          rw [hd] at hj
          cases hj
        · exact ⟨x, hx, h⟩
    | some t =>
      obtain ⟨cho, jung, jong⟩ := t
      simp only [has_phoneme_at_position, hd, if_pos, Bool.or_eq_true,
        decide_eq_true_eq, ih, List.mem_cons]
      constructor
      · rintro (hj | ⟨x, hx, h⟩)
        · exact ⟨c, Or.inl rfl, cho, jung, by rw [hd, hj]⟩
        · exact ⟨x, Or.inr hx, h⟩
      · rintro ⟨x, hx | hx, a, b, h⟩
        · subst hx
          rw [hd] at h
          cases h
          exact Or.inl rfl
        · exact Or.inr ⟨x, hx, a, b, h⟩

/-- C3: the null onset never matches: `has_phoneme_at_position word "ㅇ" onset`
is `false` for every word; the same symbol in coda position is real, e.g.
`has_phoneme_at_position "강" "ㅇ" coda = true`; and in `any` position a
search for `ㅇ` succeeds exactly when some character has coda `ㅇ` (the null
onset is never counted). -/
theorem claim_C3_onset_ieung_exclusion :
    (∀ word : Str, has_phoneme_at_position word ieungStr .onset = false)
    ∧ has_phoneme_at_position (lit "강") ieungStr .coda = true
    ∧ (∀ word : Str,
        has_phoneme_at_position word ieungStr .any = true ↔
          ∃ c ∈ word, ∃ cho jung,
            decompose_hangul c = some (cho, jung, ieungStr)) := by
  refine ⟨?_, by decide, ieung_any_iff⟩
  intro word
  induction word with
  | nil => simp [has_phoneme_at_position]
  | cons c rest ih =>
    cases hd : decompose_hangul c with
    | none => simpa [has_phoneme_at_position, hd] using ih
    | some t =>
      obtain ⟨cho, jung, jong⟩ := t
      simp [has_phoneme_at_position, hd]

end ClaimC3

section ClaimC1

/-- The resolved core-word list is never empty: the explicit cleaned list is
used only when non-empty, and both default lists are non-empty. -/
theorem resolve_core_words_ne_nil (language : Language)
    (cw : Option (List Str)) : resolve_core_words language cw ≠ [] := by
  simp only [resolve_core_words]
  cases h : (normalize_core_words cw).isEmpty with
  | true =>
    simp only [h, if_true]
    cases language <;> simp [DEFAULT_CORE_WORDS]
  | false =>
    simp only [h, Bool.false_eq_true, if_false]
    simpa [List.isEmpty_iff] using h

/-- C1 counterexample: the Korean core-word membership check does no
particle stripping. With explicit core word `이거`, the sentence token
`이거를` is exactly that core word plus the attached particle `를` (a member
of the repository's own Korean particle table), yet the membership check
rejects the token list `[이거를, 먹어]`. -/
theorem claim_C1_counterexample :
    lit "이거를" = lit "이거" ++ lit "를"
    ∧ lit "를" ∈ KOREAN_PARTICLES
    ∧ lit "이거" ∈ resolve_core_words .ko (some [lit "이거"])
    ∧ contains_core_word [lit "이거를", lit "먹어"]
        (resolve_core_words .ko (some [lit "이거"])) .ko = false := by
  decide

/-- C1 (amended): for Korean core_vocabulary requests the membership check
passes exactly when some sentence token, after stripping surrounding ASCII
punctuation only (no particle stripping), coincides with a
punctuation-stripped resolved core word, non-emptily. -/
theorem claim_C1_amended_core_word_membership (words : List Str)
    (cw : Option (List Str)) :
    contains_core_word words (resolve_core_words .ko cw) .ko = true ↔
      ∃ w ∈ words, ∃ c ∈ resolve_core_words .ko cw,
        stripBoth isPunct w = stripBoth isPunct c
        ∧ stripBoth isPunct w ≠ [] := by
  have hne : resolve_core_words .ko cw ≠ [] := resolve_core_words_ne_nil _ _
  have hnorm : ∀ w : Str, normalize_token w .ko = stripBoth isPunct w := by
    intro w
    simp [normalize_token]
  unfold contains_core_word
  rw [if_neg (by simpa [List.isEmpty_iff] using hne)]
  simp only [hnorm, List.any_eq_true, List.mem_filter, List.mem_map,
    List.elem_iff, Bool.not_eq_eq_eq_not, Bool.not_true, List.isEmpty_iff,
    List.isEmpty_eq_false]
  constructor
  · rintro ⟨x, ⟨⟨w, ⟨hw, hwne⟩, hwx⟩, hxne⟩, ⟨⟨c, ⟨hc, hcne⟩, hcx⟩, -⟩⟩
    subst hwx
    exact ⟨w, hw, c, hc, hcx.symm, hxne⟩
  · rintro ⟨w, hw, c, hc, heq, hne'⟩
    have hwne : w ≠ [] := by
      rintro rfl
      exact hne' rfl
    have hcne : c ≠ [] := by
      rintro rfl
      rw [heq] at hne'
      exact hne' rfl
    exact ⟨stripBoth isPunct w, ⟨⟨w, ⟨hw, hwne⟩, rfl⟩, hne'⟩,
      ⟨⟨c, ⟨hc, hcne⟩, heq.symm⟩, heq ▸ hne'⟩⟩

end ClaimC1

section SplitLemmas

/-- The raw splitter always produces at least one segment. -/
theorem rawSplit_ne_nil (s : Str) : rawSplit s ≠ [] := by
  cases s with
  | nil => simp [rawSplit]
  | cons c rest =>
    unfold rawSplit
    split
    · simp
    · cases h : rawSplit rest <;> simp

/-- Leading whitespace does not affect whitespace splitting. -/
theorem splitWs_cons_ws {c : Char} (hc : isWs c = true) (s : Str) :
    splitWs (c :: s) = splitWs s := by
  simp [splitWs, rawSplit, hc]

/-- Appending a whitespace character appends an empty segment. -/
theorem rawSplit_append_ws {c : Char} (hc : isWs c = true) (s : Str) :
    rawSplit (s ++ [c]) = rawSplit s ++ [[]] := by
  induction s with
  | nil => simp [rawSplit, hc]
  | cons a rest ih =>
    by_cases ha : isWs a = true
    · simp [rawSplit, ha, ih]
    · simp only [List.cons_append, rawSplit, ha, Bool.false_eq_true, if_false]
      simp only [List.append_eq]
      rw [ih]
      cases h : rawSplit rest with
      | nil => exact absurd h (rawSplit_ne_nil rest)
      | cons t ts => simp

/-- Trailing whitespace does not affect whitespace splitting. -/
theorem splitWs_append_ws {c : Char} (hc : isWs c = true) (s : Str) :
    splitWs (s ++ [c]) = splitWs s := by
  simp [splitWs, rawSplit_append_ws hc]

/-- Appending any all-whitespace suffix does not affect splitting. -/
theorem splitWs_append_ws_all (t : Str) (ht : ∀ c ∈ t, isWs c = true) :
    ∀ s : Str, splitWs (s ++ t) = splitWs s := by
  induction t with
  | nil => simp
  | cons c rest ih =>
    intro s
    have : s ++ c :: rest = (s ++ [c]) ++ rest := by simp
    rw [this, ih (fun x hx => ht x (List.mem_cons_of_mem _ hx)),
      splitWs_append_ws (ht c (List.mem_cons_self c rest))]

/-- Dropping any all-whitespace leading run does not affect splitting. -/
theorem splitWs_dropWhile (s : Str) :
    splitWs (s.dropWhile isWs) = splitWs s := by
  induction s with
  | nil => simp
  | cons c rest ih =>
    by_cases hc : isWs c = true
    · rw [List.dropWhile_cons_of_pos hc, ih, splitWs_cons_ws hc]
    · rw [List.dropWhile_cons_of_neg (by simpa using hc)]

/-- Every list splits as its end-stripped part followed by the stripped
all-`p` tail. -/
theorem eq_stripEnd_append (p : Char → Bool) (l : Str) :
    l = (l.reverse.dropWhile p).reverse ++ (l.reverse.takeWhile p).reverse := by
  have h := List.takeWhile_append_dropWhile (p := p) (l := l.reverse)
  have h2 : l.reverse.reverse =
      (l.reverse.takeWhile p ++ l.reverse.dropWhile p).reverse := by rw [h]
  rw [List.reverse_append] at h2
  rw [List.reverse_reverse] at h2
  exact h2

/-- Python's `strip()` before `split()` is redundant: stripping surrounding
whitespace does not change the whitespace token list. -/
theorem splitWs_stripBoth (s : Str) :
    splitWs (stripBoth isWs s) = splitWs s := by
  unfold stripBoth stripLead stripEnd
  set s' := s.dropWhile isWs with hs'
  have hws : ∀ c ∈ (s'.reverse.takeWhile isWs).reverse, isWs c = true := by
    intro c hcm
    rw [List.mem_reverse] at hcm
    exact List.mem_takeWhile_imp hcm
  calc splitWs (s'.reverse.dropWhile isWs).reverse
      = splitWs ((s'.reverse.dropWhile isWs).reverse ++
          (s'.reverse.takeWhile isWs).reverse) :=
        (splitWs_append_ws_all _ hws _).symm
    _ = splitWs s' := by rw [← eq_stripEnd_append isWs s']
    _ = splitWs s := splitWs_dropWhile s

end SplitLemmas

section ClaimC2

/-- C2: the recorded `word_count` is the whitespace token count of the
sentence; a passing result's count equals the requested `sentenceLength`
exactly; and a sentence with a differing token count fails with the
`word_count` reason carrying the expected and actual counts. -/
theorem claim_C2_word_count (getPhonemes : Str → List Str) (sentence : Str)
    (request : GenerateRequestV2) (difficulty : Option Str) :
    (validate_single getPhonemes sentence request difficulty).word_count
        = (splitWs sentence).length
    ∧ ((validate_single getPhonemes sentence request difficulty).passed = true →
        (validate_single getPhonemes sentence request difficulty).word_count
          = request.sentenceLength)
    ∧ ((splitWs sentence).length ≠ request.sentenceLength →
        (validate_single getPhonemes sentence request difficulty).passed = false
        ∧ (validate_single getPhonemes sentence request difficulty).fail_reason
            = some (wordCountReason request.sentenceLength
                (splitWs sentence).length)) := by
  unfold validate_single
  simp only [splitWs_stripBoth]
  refine ⟨?_, ?_, ?_⟩
  · repeat' split
    all_goals rfl
  · by_cases hlen : (splitWs sentence).length ≠ request.sentenceLength
    · rw [if_pos hlen]
      intro h
      cases h
    · rw [if_neg hlen]
      push_neg at hlen
      intro h
      repeat' split
      all_goals simp_all
  · intro hlen
    rw [if_pos hlen]
    exact ⟨rfl, rfl⟩

/-- C2 witness at a concrete input: a 2-token sentence against a request of
length 4 fails with the encoded expected/actual counts; evaluated instance
of the conditional parts. -/
theorem claim_C2_word_count_witness :
    ((splitWs (lit "라면이 맛있어")).length ≠ (4 : ℕ))
    ∧ ((validate_single (fun _ => []) (lit "라면이 맛있어")
          ⟨.ko, 5, 5, some ⟨lit "ㄹ", .onset, 1⟩, 4, .SSD, .minimal_pairs,
            none, none, none⟩ none).passed = false
        ∧ (validate_single (fun _ => []) (lit "라면이 맛있어")
            ⟨.ko, 5, 5, some ⟨lit "ㄹ", .onset, 1⟩, 4, .SSD, .minimal_pairs,
              none, none, none⟩ none).fail_reason
          = some (wordCountReason 4 (splitWs (lit "라면이 맛있어")).length)) := by
  constructor
  · decide
  · exact (claim_C2_word_count (fun _ => []) (lit "라면이 맛있어")
      ⟨.ko, 5, 5, some ⟨lit "ㄹ", .onset, 1⟩, 4, .SSD, .minimal_pairs,
        none, none, none⟩ none).2.2 (by decide)

end ClaimC2

section ClaimC9

/-- The validator echoes the input sentence unchanged in its result. -/
theorem validate_single_sentence_eq (getPhonemes : Str → List Str) (s : Str)
    (request : GenerateRequestV2) (d : Option Str) :
    (validate_single getPhonemes s request d).sentence = s := by
  simp only [validate_single]
  repeat' split
  all_goals rfl

/-- C9: `validate_sentences` produces exactly one result, in input order,
for each candidate that is a string or a dict with a string `sentence`
value (all other candidates are silently dropped), and a declared
difficulty outside the allowed set is replaced by `none`. -/
theorem claim_C9_candidate_normalization (getPhonemes : Str → List Str)
    (sentences : List RawCandidate) (request : GenerateRequestV2) :
    ((validate_sentences getPhonemes sentences request).map
        (fun r => r.sentence) = sentences.filterMap keptSentence)
    ∧ (∀ (s d : Str), allowedDifficulties.contains d = false →
        validate_sentences getPhonemes
            [.dict (some (.str s)) (some (.str d))] request
          = [validate_single getPhonemes s request none]) := by
  constructor
  · unfold validate_sentences
    rw [List.map_map]
    induction sentences with
    | nil => rfl
    | cons item rest ih =>
      cases item with
      | str s =>
        simpa [List.filterMap_cons, normalize_candidate, keptSentence,
          validate_single_sentence_eq] using ih
      | dict sv dv =>
        cases sv with
        | none =>
          simpa [List.filterMap_cons, normalize_candidate, keptSentence]
            using ih
        | some v =>
          cases v with
          | str s =>
            simpa [List.filterMap_cons, normalize_candidate, keptSentence,
              validate_single_sentence_eq] using ih
          | nonStr =>
            simpa [List.filterMap_cons, normalize_candidate, keptSentence]
              using ih
      | nonDict =>
        simpa [List.filterMap_cons, normalize_candidate, keptSentence]
          using ih
  · intro s d hd
    have hd' : d ∉ allowedDifficulties := by
      intro hm
      exact Bool.false_ne_true (hd ▸ List.elem_iff.mpr hm)
    simp [validate_sentences, normalize_candidate, hd']

/-- C9 witness: a concrete mixed candidate list; the dict without a string
sentence is dropped, and an invalid difficulty tag becomes `none`. -/
theorem claim_C9_candidate_normalization_witness :
    ((validate_sentences (fun _ => [])
        [.str (lit "이거 밥 줘"), .dict none none,
         .dict (some (.str (lit "라면이 좋아요"))) (some (.str (lit "wild")))]
        ⟨.ko, 5, 5, none, 3, .ASD, .core_vocabulary, none, none, none⟩).map
          (fun r => r.sentence)
        = [lit "이거 밥 줘", lit "라면이 좋아요"])
    ∧ (allowedDifficulties.contains (lit "wild") = false)
    ∧ (validate_sentences (fun _ => [])
        [.dict (some (.str (lit "라면이 좋아요"))) (some (.str (lit "wild")))]
        ⟨.ko, 5, 5, none, 3, .ASD, .core_vocabulary, none, none, none⟩
        = [validate_single (fun _ => []) (lit "라면이 좋아요")
            ⟨.ko, 5, 5, none, 3, .ASD, .core_vocabulary, none, none, none⟩
            none]) := by
  refine ⟨?_, by decide, ?_⟩
  · rw [(claim_C9_candidate_normalization (fun _ => []) _ _).1]
    decide
  · exact (claim_C9_candidate_normalization (fun _ => []) [] _).2
      (lit "라면이 좋아요") (lit "wild") (by decide)

end ClaimC9

section ClaimC4

/-- C4: the score weights always sum to one; frequency and function are
zeroed for non-Korean requests; function is zeroed when no communicative
function is requested; match bonus is zeroed for the core-vocabulary
approach; and when every base-weighted item is zeroed, length fit carries
weight one. -/
theorem claim_C4_weight_renormalization (request : GenerateRequestV2) :
    ((get_score_weights request).frequency
        + (get_score_weights request).function
        + (get_score_weights request).match_bonus
        + (get_score_weights request).length_fit = 1)
    ∧ (request.language ≠ .ko →
        (get_score_weights request).frequency = 0
        ∧ (get_score_weights request).function = 0)
    ∧ (request.communicativeFunction = none →
        (get_score_weights request).function = 0)
    ∧ (request.therapyApproach = .core_vocabulary →
        (get_score_weights request).match_bonus = 0)
    ∧ (request.language ≠ .ko → request.therapyApproach = .core_vocabulary →
        get_score_weights request = ⟨0, 0, 0, 1⟩) := by
  obtain ⟨lang, age, count, target, slen, diag, appr, theme, cf, cw⟩ := request
  cases lang <;> cases appr <;> cases cf <;>
    simp [get_score_weights, BASE_SCORE_WEIGHTS] <;> norm_num

/-- C4 witness: an English core-vocabulary request with no communicative
function zeroes every base-weighted item and puts weight one on length
fit. -/
theorem claim_C4_weight_renormalization_witness :
    ((get_score_weights
        ⟨.en, 4, 5, none, 3, .ASD, .core_vocabulary, none, none, none⟩).frequency
      + (get_score_weights
        ⟨.en, 4, 5, none, 3, .ASD, .core_vocabulary, none, none, none⟩).function
      + (get_score_weights
        ⟨.en, 4, 5, none, 3, .ASD, .core_vocabulary, none, none, none⟩).match_bonus
      + (get_score_weights
        ⟨.en, 4, 5, none, 3, .ASD, .core_vocabulary, none, none, none⟩).length_fit
        = 1)
    ∧ get_score_weights
        ⟨.en, 4, 5, none, 3, .ASD, .core_vocabulary, none, none, none⟩
        = ⟨0, 0, 0, 1⟩ := by
  have h := claim_C4_weight_renormalization
    ⟨.en, 4, 5, none, 3, .ASD, .core_vocabulary, none, none, none⟩
  exact ⟨h.1, h.2.2.2.2 (by decide) rfl⟩

end ClaimC4

section ClaimC6

/-- All renormalized weights are nonnegative. -/
theorem get_score_weights_nonneg (request : GenerateRequestV2) :
    0 ≤ (get_score_weights request).frequency
    ∧ 0 ≤ (get_score_weights request).function
    ∧ 0 ≤ (get_score_weights request).match_bonus
    ∧ 0 ≤ (get_score_weights request).length_fit := by
  obtain ⟨lang, age, count, target, slen, diag, appr, theme, cf, cw⟩ := request
  cases lang <;> cases appr <;> cases cf <;>
    simp [get_score_weights, BASE_SCORE_WEIGHTS] <;> norm_num

/-- C6: with the sentence and all other inputs held fixed, a larger
matched-word list never decreases the weighted base composite computed by
the scorer. -/
theorem claim_C6_match_bonus_monotone (request : GenerateRequestV2)
    (data : List (Str × ℤ)) (sentence : Str) (mw1 mw2 : List Str)
    (h : mw1.length ≤ mw2.length) :
    base_composite (get_score_weights request)
        (calculate_breakdown data sentence mw1 request)
      ≤ base_composite (get_score_weights request)
        (calculate_breakdown data sentence mw2 request) := by
  have hw := (get_score_weights_nonneg request).2.2.1
  have hmb : ((min (mw1.length * 30) 100 : ℕ) : ℚ)
      ≤ ((min (mw2.length * 30) 100 : ℕ) : ℚ) := by
    have : min (mw1.length * 30) 100 ≤ min (mw2.length * 30) 100 :=
      min_le_min (by omega) le_rfl
    exact_mod_cast this
  simp only [base_composite, calculate_breakdown]
  have := mul_le_mul_of_nonneg_right hmb hw
  linarith

/-- C6 witness: one matched word versus two, concrete Korean request. -/
theorem claim_C6_match_bonus_monotone_witness :
    base_composite
        (get_score_weights
          ⟨.ko, 5, 5, some ⟨lit "ㄹ", .onset, 1⟩, 4, .SSD, .minimal_pairs,
            none, none, none⟩)
        (calculate_breakdown [] (lit "라면이 정말 너무 맛있어요")
          [lit "라면이"]
          ⟨.ko, 5, 5, some ⟨lit "ㄹ", .onset, 1⟩, 4, .SSD, .minimal_pairs,
            none, none, none⟩)
      ≤ base_composite
        (get_score_weights
          ⟨.ko, 5, 5, some ⟨lit "ㄹ", .onset, 1⟩, 4, .SSD, .minimal_pairs,
            none, none, none⟩)
        (calculate_breakdown [] (lit "라면이 정말 너무 맛있어요")
          [lit "라면이", lit "너무"]
          ⟨.ko, 5, 5, some ⟨lit "ㄹ", .onset, 1⟩, 4, .SSD, .minimal_pairs,
            none, none, none⟩) :=
  claim_C6_match_bonus_monotone _ [] _ [lit "라면이"] [lit "라면이", lit "너무"]
    (by decide)

end ClaimC6

section SortLemmas

/-- Stable insertion only repositions the inserted element. -/
theorem stableInsert_perm (le : α → α → Bool) (x : α) :
    ∀ l : List α, (stableInsert le x l).Perm (x :: l) := by
  intro l
  induction l with
  | nil => exact List.Perm.refl _
  | cons y ys ih =>
    unfold stableInsert
    split
    · exact List.Perm.refl _
    · exact (ih.cons y).trans (List.Perm.swap x y ys)

/-- The stable sort permutes its input (accumulator form). -/
theorem stableSortBy_perm_aux (le : α → α → Bool) :
    ∀ (l acc : List α),
      (l.foldl (fun acc x => stableInsert le x acc) acc).Perm (acc ++ l) := by
  intro l
  induction l with
  | nil => intro acc; simp
  | cons x rest ih =>
    intro acc
    rw [List.foldl_cons]
    refine (ih (stableInsert le x acc)).trans ?_
    refine ((stableInsert_perm le x acc).append_right rest).trans ?_
    exact List.perm_middle.symm

/-- The stable sort permutes its input. -/
theorem stableSortBy_perm (le : α → α → Bool) (l : List α) :
    (stableSortBy le l).Perm l := by
  simpa [stableSortBy] using stableSortBy_perm_aux le l []

end SortLemmas

section ClaimC10

/-- The penalty pass emits exactly one result per input, carrying the
sentence, matched words, word count and difficulty through unchanged. -/
theorem divFold_map_fields (language : Language) :
    ∀ (l : List PrelimScored) (acc : List ScoredSentence),
      (divFold language l acc).map
          (fun s => (s.sentence, s.matched_words, s.word_count, s.difficulty))
        = l.map
          (fun p => (p.sentence, p.matched_words, p.word_count, p.difficulty))
    := by
  intro l
  induction l with
  | nil => intro acc; rfl
  | cons p rest ih =>
    intro acc
    simp only [divFold, List.map_cons, ih]

/-- The penalty pass preserves length. -/
theorem divFold_length (language : Language) :
    ∀ (l : List PrelimScored) (acc : List ScoredSentence),
      (divFold language l acc).length = l.length := by
  intro l
  induction l with
  | nil => intro acc; rfl
  | cons p rest ih =>
    intro acc
    simp only [divFold, List.length_cons, ih]

/-- C10: scoring returns exactly one result per validated input — the
output is a reordering of the inputs of the same length, and each output
carries its input's sentence, matched words, word count and difficulty
unchanged (only the score and breakdown are added). -/
theorem claim_C10_score_frame (data : List (Str × ℤ))
    (validated : List ValidatedItem) (request : GenerateRequestV2) :
    ((score_sentences data validated request).length = validated.length)
    ∧ ((score_sentences data validated request).map
          (fun s => (s.sentence, s.matched_words, s.word_count,
            s.difficulty))).Perm
        (validated.map
          (fun v => (v.sentence, v.matched_words, v.word_count,
            v.difficulty))) := by
  simp only [score_sentences]
  constructor
  · rw [(stableSortBy_perm _ _).length_eq, divFold_length,
      (stableSortBy_perm _ _).length_eq, List.length_map]
  · refine ((stableSortBy_perm _ _).map _).trans ?_
    rw [divFold_map_fields]
    refine ((stableSortBy_perm _ _).map _).trans ?_
    rw [List.map_map]
    exact List.Perm.refl _

end ClaimC10

section ClaimC5

/-- A frequency value produced by the longest-prefix search is a table
value. -/
theorem gwfAux_mem (data : List (Str × ℤ)) (word : Str) :
    ∀ (n : ℕ) (v : ℤ), gwfAux data word n = some v → ∃ p ∈ data, p.2 = v := by
  intro n
  induction n with
  | zero => intro v h; cases h
  | succ l ih =>
    intro v h
    unfold gwfAux at h
    revert h
    cases hl : lookupAssoc data (word.take (l + 1)) with
    | none => exact fun h => ih v h
    | some w =>
      intro h
      cases h
      unfold lookupAssoc at hl
      cases hf : data.find? (fun p => p.1 = word.take (l + 1)) with
      | none => rw [hf] at hl; cases hl
      | some p =>
        rw [hf] at hl
        cases hl
        exact ⟨p, List.mem_of_find?_eq_some hf, rfl⟩

/-- Word frequencies stay in the declared 0–100 band of the table, with the
out-of-table default 50. -/
theorem get_word_frequency_bounds (data : List (Str × ℤ))
    (hfd : ∀ p ∈ data, 0 ≤ p.2 ∧ p.2 ≤ 100) (word : Str) :
    0 ≤ get_word_frequency data word ∧ get_word_frequency data word ≤ 100 := by
  unfold get_word_frequency
  cases h : gwfAux data word word.length with
  | none => simp
  | some v =>
    obtain ⟨p, hp, hv⟩ := gwfAux_mem data word word.length v h
    simpa [hv] using hfd p hp

/-- Sums of lists with entries in `[0, 100]` are between `0` and
`100 · length`. -/
theorem sum_bounds_100 (l : List ℚ) (h : ∀ x ∈ l, 0 ≤ x ∧ x ≤ 100) :
    0 ≤ l.sum ∧ l.sum ≤ 100 * l.length := by
  induction l with
  | nil => simp
  | cons x rest ih =>
    have hx := h x (List.mem_cons_self x rest)
    have hr := ih (fun y hy => h y (List.mem_cons_of_mem x hy))
    simp only [List.sum_cons, List.length_cons]
    push_cast
    constructor <;> linarith [hx.1, hx.2, hr.1, hr.2]

/-- The sentence frequency score stays in `[0, 100]` whenever the table
does. -/
theorem get_sentence_frequency_score_bounds (data : List (Str × ℤ))
    (hfd : ∀ p ∈ data, 0 ≤ p.2 ∧ p.2 ≤ 100) (sentence : Str) :
    0 ≤ get_sentence_frequency_score data sentence
    ∧ get_sentence_frequency_score data sentence ≤ 100 := by
  unfold get_sentence_frequency_score
  dsimp only
  split
  · norm_num
  next hw =>
    set words := splitWs sentence with hwords
    have hlen : 0 < (words.length : ℚ) := by
      have hne : words ≠ [] := by
        intro hnil
        apply hw
        simp [← hwords, hnil]
      have : 0 < words.length := List.length_pos.mpr hne
      exact_mod_cast this
    have hb := sum_bounds_100
      (words.map (fun w => ((get_word_frequency data w : ℤ) : ℚ)))
      (by
        intro x hx
        obtain ⟨w, hwm, rfl⟩ := List.mem_map.mp hx
        have := get_word_frequency_bounds data hfd w
        exact ⟨by exact_mod_cast this.1, by exact_mod_cast this.2⟩)
    rw [List.length_map] at hb
    constructor
    · exact div_nonneg hb.1 (le_of_lt hlen)
    · rw [div_le_iff hlen]
      linarith [hb.2]

/-- `round(x, 2)` preserves the `[0, 100]` band. -/
theorem round2_bounds {x : ℚ} (h0 : 0 ≤ x) (h1 : x ≤ 100) :
    0 ≤ round2 x ∧ round2 x ≤ 100 := by
  unfold round2
  rw [round_eq]
  have hl : (0 : ℤ) ≤ ⌊x * 100 + 1 / 2⌋ := by
    apply Int.le_floor.mpr
    push_cast
    linarith
  have hu : ⌊x * 100 + 1 / 2⌋ < 10001 := by
    apply Int.floor_lt.mpr
    push_cast
    linarith
  constructor
  · positivity
  · rw [div_le_iff (by norm_num : (0:ℚ) < 100)]
    have : ⌊x * 100 + 1 / 2⌋ ≤ 10000 := by omega
    calc ((⌊x * 100 + 1 / 2⌋ : ℤ) : ℚ) ≤ ((10000 : ℤ) : ℚ) := by
          exact_mod_cast this
      _ = 100 * 100 := by norm_num

/-- Every component of the computed breakdown lies in `[0, 100]`. -/
theorem calculate_breakdown_bounds (data : List (Str × ℤ))
    (hfd : ∀ p ∈ data, 0 ≤ p.2 ∧ p.2 ≤ 100) (sentence : Str)
    (matched_words : List Str) (request : GenerateRequestV2) :
    (0 ≤ (calculate_breakdown data sentence matched_words request).frequency
      ∧ (calculate_breakdown data sentence matched_words request).frequency
          ≤ 100)
    ∧ (0 ≤ (calculate_breakdown data sentence matched_words request).function
      ∧ (calculate_breakdown data sentence matched_words request).function
          ≤ 100)
    ∧ (0 ≤ (calculate_breakdown data sentence matched_words
          request).match_bonus
      ∧ (calculate_breakdown data sentence matched_words request).match_bonus
          ≤ 100)
    ∧ (calculate_breakdown data sentence matched_words request).length_fit
        = 100 := by
  unfold calculate_breakdown
  dsimp only
  refine ⟨?_, ?_, ?_, rfl⟩
  · split
    · exact round2_bounds
        (get_sentence_frequency_score_bounds data hfd sentence).1
        (get_sentence_frequency_score_bounds data hfd sentence).2
    · exact round2_bounds (by norm_num) (by norm_num)
  · repeat' split
    all_goals norm_num
  · constructor
    · exact_mod_cast Nat.zero_le _
    · have : min (matched_words.length * 30) 100 ≤ 100 := min_le_right _ _
      exact_mod_cast this

/-- The renormalized weights sum to one. -/
theorem get_score_weights_sum_one (request : GenerateRequestV2) :
    (get_score_weights request).frequency + (get_score_weights request).function
      + (get_score_weights request).match_bonus
      + (get_score_weights request).length_fit = 1 := by
  obtain ⟨lang, age, count, target, slen, diag, appr, theme, cf, cw⟩ := request
  cases lang <;> cases appr <;> cases cf <;>
    simp [get_score_weights, BASE_SCORE_WEIGHTS] <;> norm_num

/-- A convex combination of `[0, 100]` sub-scores by the renormalized
weights stays in `[0, 100]`. -/
theorem base_composite_bounds (request : GenerateRequestV2) (b : Breakdown)
    (hf : 0 ≤ b.frequency ∧ b.frequency ≤ 100)
    (hfn : 0 ≤ b.function ∧ b.function ≤ 100)
    (hmb : 0 ≤ b.match_bonus ∧ b.match_bonus ≤ 100)
    (hlf : b.length_fit = 100) :
    0 ≤ base_composite (get_score_weights request) b
    ∧ base_composite (get_score_weights request) b ≤ 100 := by
  obtain ⟨hw1, hw2, hw3, hw4⟩ := get_score_weights_nonneg request
  have hsum := get_score_weights_sum_one request
  unfold base_composite
  constructor
  · have := mul_nonneg hf.1 hw1
    have := mul_nonneg hfn.1 hw2
    have := mul_nonneg hmb.1 hw3
    have := mul_nonneg (by rw [hlf]; norm_num : (0:ℚ) ≤ b.length_fit) hw4
    linarith
  · have h1 := mul_le_mul_of_nonneg_right hf.2 hw1
    have h2 := mul_le_mul_of_nonneg_right hfn.2 hw2
    have h3 := mul_le_mul_of_nonneg_right hmb.2 hw3
    have h4 : b.length_fit * (get_score_weights request).length_fit
        ≤ 100 * (get_score_weights request).length_fit := by
      rw [hlf]
    linarith

/-- The diversity penalty is never negative. -/
theorem calculate_diversity_penalty_nonneg (sentence : Str)
    (already_scored : List ScoredSentence) (language : Language) :
    0 ≤ calculate_diversity_penalty sentence already_scored language := by
  unfold calculate_diversity_penalty
  split
  · norm_num
  · have key : ∀ (l : List ScoredSentence) (init : ℚ), 0 ≤ init →
        0 ≤ l.foldl
          (fun penalty scored =>
            let other_structure :=
              extract_sentence_structure scored.sentence language
            let other_nouns := extract_nouns scored.sentence language
            let penalty :=
              if extract_sentence_structure sentence language
                  = other_structure then penalty + 10
              else penalty
            if !(extract_nouns sentence language).isEmpty
                && !other_nouns.isEmpty then
              penalty +
                (((extract_nouns sentence language).filter
                  (fun n => other_nouns.contains n)).length : ℚ) * 5
            else penalty)
          init := by
      intro l
      induction l with
      | nil => intro init h; simpa using h
      | cons x rest ih =>
        intro init h
        rw [List.foldl_cons]
        apply ih
        have hstep : init ≤
            if extract_sentence_structure sentence language
                = extract_sentence_structure x.sentence language then
              init + 10
            else init := by
          split <;> linarith
        have hcount : (0:ℚ) ≤
            (((extract_nouns sentence language).filter
              (fun n => (extract_nouns x.sentence language).contains n)).length
              : ℚ) * 5 := by positivity
        dsimp only
        split <;> linarith
    exact key _ 0 le_rfl

/-- Every score produced by the penalty pass is a rounded, floored, capped
adjustment of some input's base score by a nonnegative penalty. -/
theorem divFold_mem_score (language : Language) :
    ∀ (l : List PrelimScored) (acc : List ScoredSentence)
      (s : ScoredSentence), s ∈ divFold language l acc →
      ∃ p ∈ l, ∃ pen : ℚ, 0 ≤ pen
        ∧ s.score = round2 (max 0 (p.base_score - min pen 50)) := by
  intro l
  induction l with
  | nil => intro acc s h; cases h
  | cons p rest ih =>
    intro acc s h
    rw [divFold] at h
    rcases List.mem_cons.mp h with h1 | h2
    · subst h1
      exact ⟨p, List.mem_cons_self p rest,
        calculate_diversity_penalty p.sentence acc language,
        calculate_diversity_penalty_nonneg p.sentence acc language, rfl⟩
    · obtain ⟨q, hq, pen, hpen, hs⟩ := ih _ s h2
      exact ⟨q, List.mem_cons_of_mem p hq, pen, hpen, hs⟩

/-- C5: under the assumption that every table frequency value lies in
`[0, 100]`, every scored sentence's final score lies in `[0, 100]`. -/
theorem claim_C5_score_range (data : List (Str × ℤ))
    (validated : List ValidatedItem) (request : GenerateRequestV2)
    (hfd : ∀ p ∈ data, 0 ≤ p.2 ∧ p.2 ≤ 100) (s : ScoredSentence)
    (hs : s ∈ score_sentences data validated request) :
    0 ≤ s.score ∧ s.score ≤ 100 := by
  simp only [score_sentences] at hs
  rw [(stableSortBy_perm _ _).mem_iff] at hs
  obtain ⟨p, hp, pen, hpen, hscore⟩ := divFold_mem_score _ _ _ _ hs
  rw [(stableSortBy_perm _ _).mem_iff] at hp
  obtain ⟨item, hitem, rfl⟩ := List.mem_map.mp hp
  have hb := calculate_breakdown_bounds data hfd item.sentence
    item.matched_words request
  have hbase := base_composite_bounds request _ hb.1 hb.2.1 hb.2.2.1 hb.2.2.2
  have hmin : 0 ≤ min pen 50 := le_min hpen (by norm_num)
  have hy0 : (0:ℚ) ≤ max 0 (base_composite (get_score_weights request)
      (calculate_breakdown data item.sentence item.matched_words request)
      - min pen 50) := le_max_left _ _
  have hy1 : max 0 (base_composite (get_score_weights request)
      (calculate_breakdown data item.sentence item.matched_words request)
      - min pen 50) ≤ 100 := by
    apply max_le (by norm_num)
    linarith [hbase.2]
  rw [hscore]
  exact round2_bounds hy0 hy1

/-- C5 witness: concrete empty table (vacuously bounded) and a concrete
validated sentence; the sole output's score is within bounds. -/
theorem claim_C5_score_range_witness :
    (∀ p ∈ ([] : List (Str × ℤ)), 0 ≤ p.2 ∧ p.2 ≤ 100)
    ∧ (0 ≤ (score_sentences [] [⟨lit "라면이 좋아요", [lit "라면이"], 2, none⟩]
          ⟨.ko, 5, 5, some ⟨lit "ㄹ", .onset, 1⟩, 2, .SSD, .minimal_pairs,
            none, none, none⟩).headI.score
      ∧ (score_sentences [] [⟨lit "라면이 좋아요", [lit "라면이"], 2, none⟩]
          ⟨.ko, 5, 5, some ⟨lit "ㄹ", .onset, 1⟩, 2, .SSD, .minimal_pairs,
            none, none, none⟩).headI.score ≤ 100) := by
  refine ⟨by simp, ?_⟩
  exact claim_C5_score_range [] [⟨lit "라면이 좋아요", [lit "라면이"], 2, none⟩]
    ⟨.ko, 5, 5, some ⟨lit "ㄹ", .onset, 1⟩, 2, .SSD, .minimal_pairs,
      none, none, none⟩ (by simp)
    ((score_sentences [] [⟨lit "라면이 좋아요", [lit "라면이"], 2, none⟩]
      ⟨.ko, 5, 5, some ⟨lit "ㄹ", .onset, 1⟩, 2, .SSD, .minimal_pairs,
        none, none, none⟩).headI)
    (by simp [score_sentences, stableSortBy, stableInsert, divFold])

end ClaimC5

section ClaimC8

/-- Replacing every failing generation attempt by a successful empty batch
does not change the retry loop's final state: a caught exception behaves
exactly like an attempt that produced zero candidates. -/
theorem runAttempts_error_as_empty (getPhonemes : Str → List Str)
    (request : GenerateRequestV2)
    (gen : ℕ → ℕ → Except Str (List RawCandidate)) (target : ℕ) :
    ∀ (fuel attempt : ℕ) (st : PipeState),
      runAttempts getPhonemes request gen target fuel attempt st
        = runAttempts getPhonemes request
            (fun k b =>
              match gen k b with
              | .error _ => .ok []
              | r => r)
            target fuel attempt st := by
  intro fuel
  induction fuel with
  | zero => intro attempt st; rfl
  | succ f ih =>
    intro attempt st
    simp only [runAttempts]
    by_cases hb : ((target : ℤ) - st.all_validated.length ≤ 0)
    · rw [if_pos hb, if_pos hb]
    · rw [if_neg hb, if_neg hb]
      cases hg : gen attempt
          (3 * ((target : ℤ) - st.all_validated.length).toNat / 2) with
      | error e =>
        simp only [hg]
        have hst : (⟨st.all_candidates ++ [], st.all_results ++ [],
            st.all_validated ++ get_passed_sentences []⟩ : PipeState) = st := by
          simp [get_passed_sentences]
        have hlt : ¬ (target ≤ (st.all_validated ++
            get_passed_sentences
              (validate_sentences getPhonemes [] request)).length) := by
          have : st.all_validated.length < target := by omega
          simpa [validate_sentences, get_passed_sentences] using this
        rw [if_neg hlt]
        calc runAttempts getPhonemes request gen target f (attempt + 1) st
            = runAttempts getPhonemes request
                (fun k b =>
                  match gen k b with
                  | .error _ => .ok []
                  | r => r) target f (attempt + 1) st := ih (attempt + 1) st
          _ = _ := by
              congr 1
              exact hst.symm
      | ok candidates =>
        simp only [hg]
        split
        · rfl
        · exact ih (attempt + 1) _

/-- When every attempt raises, the retry loop leaves its state untouched. -/
theorem runAttempts_all_error (getPhonemes : Str → List Str)
    (request : GenerateRequestV2)
    (gen : ℕ → ℕ → Except Str (List RawCandidate)) (target : ℕ)
    (h : ∀ k b, ∃ e, gen k b = .error e) :
    ∀ (fuel attempt : ℕ) (st : PipeState),
      runAttempts getPhonemes request gen target fuel attempt st = st := by
  intro fuel
  induction fuel with
  | zero => intro attempt st; rfl
  | succ f ih =>
    intro attempt st
    simp only [runAttempts]
    by_cases hb : ((target : ℤ) - st.all_validated.length ≤ 0)
    · rw [if_pos hb]
    · rw [if_neg hb]
      obtain ⟨e, hg⟩ :=
        h attempt (3 * ((target : ℤ) - st.all_validated.length).toNat / 2)
      simp only [hg]
      exact ih (attempt + 1) st

/-- C8: a generation attempt that raises is caught and treated as a
zero-candidate attempt (the pipeline result is unchanged under that
replacement), and when every attempt raises the pipeline still returns
`success = true` with an empty item list. -/
theorem claim_C8_generation_failure (getPhonemes : Str → List Str)
    (data : List (Str × ℤ)) (request : GenerateRequestV2)
    (gen : ℕ → ℕ → Except Str (List RawCandidate)) (max_attempts : ℕ) :
    (run_pipeline getPhonemes data request gen max_attempts
      = run_pipeline getPhonemes data request
          (fun k b =>
            match gen k b with
            | .error _ => .ok []
            | r => r)
          max_attempts)
    ∧ ((∀ k b, ∃ e, gen k b = .error e) →
        (run_pipeline getPhonemes data request gen max_attempts).success
            = true
        ∧ (run_pipeline getPhonemes data request gen max_attempts).items
            = []) := by
  constructor
  · simp only [run_pipeline,
      runAttempts_error_as_empty getPhonemes request gen
        (request.count * 3) max_attempts 0 ⟨[], [], []⟩]
  · intro h
    simp only [run_pipeline,
      runAttempts_all_error getPhonemes request gen (request.count * 3) h
        max_attempts 0 ⟨[], [], []⟩]
    exact ⟨trivial, rfl⟩

/-- C8 witness: a generator that always raises, three attempts; the
pipeline still reports success with an empty item list. -/
theorem claim_C8_generation_failure_witness :
    (run_pipeline (fun _ => []) []
        ⟨.ko, 5, 5, some ⟨lit "ㄹ", .onset, 1⟩, 4, .SSD, .minimal_pairs,
          none, none, none⟩
        (fun _ _ => .error (lit "boom")) 3).success = true
    ∧ (run_pipeline (fun _ => []) []
        ⟨.ko, 5, 5, some ⟨lit "ㄹ", .onset, 1⟩, 4, .SSD, .minimal_pairs,
          none, none, none⟩
        (fun _ _ => .error (lit "boom")) 3).items = [] :=
  (claim_C8_generation_failure (fun _ => []) []
      ⟨.ko, 5, 5, some ⟨lit "ㄹ", .onset, 1⟩, 4, .SSD, .minimal_pairs,
        none, none, none⟩
      (fun _ _ => .error (lit "boom")) 3).2
    (fun _ _ => ⟨lit "boom", rfl⟩)

end ClaimC8

section ClaimC7

/-- Any index returned by the greedy scan is unselected and below the
pattern cap. -/
theorem pickBest_spec (scored : List ScoredSentence) (keys : ℕ → DivKeys)
    (selected : List ℕ) (ms tpd : ℕ) :
    ∀ (i : ℕ) (a : ℚ),
      pickBest scored keys selected ms tpd = some (i, a) →
      selected.contains i = false
      ∧ countKey keys selected (fun k => k.pattern) ((keys i).pattern)
          < ms := by
  have key : ∀ (l : List ℕ) (best : Option (ℕ × ℚ)),
      (∀ j b, best = some (j, b) →
        selected.contains j = false
        ∧ countKey keys selected (fun k => k.pattern) ((keys j).pattern)
            < ms) →
      ∀ i a,
        l.foldl
          (fun best idx =>
            if selected.contains idx then best
            else if ms ≤ countKey keys selected
                (fun k => k.pattern) ((keys idx).pattern) then best
            else
              let k := keys idx
              let diff_count := countKey keys selected
                (fun k => k.difficulty) k.difficulty
              let penalty : ℚ :=
                (countKey keys selected (fun k => k.start) k.start : ℕ) * 3
                  + (countKey keys selected (fun k => k.ending) k.ending
                      : ℕ) * 4
                  + (if tpd ≤ diff_count then
                      ((diff_count - tpd + 1) * 10 : ℕ)
                    else 0)
              let adjusted := (scored.getD idx default).score - penalty
              match best with
              | none => some (idx, adjusted)
              | some (bi, ba) =>
                if ba < adjusted then some (idx, adjusted)
                else some (bi, ba))
          best = some (i, a) →
        selected.contains i = false
        ∧ countKey keys selected (fun k => k.pattern) ((keys i).pattern)
            < ms := by
    intro l
    induction l with
    | nil => intro best hbest i a h; exact hbest i a h
    | cons idx rest ih =>
      intro best hbest i a h
      rw [List.foldl_cons] at h
      refine ih _ ?_ i a h
      intro j b hjb
      by_cases h1 : selected.contains idx = true
      · rw [if_pos h1] at hjb
        exact hbest j b hjb
      · rw [if_neg h1] at hjb
        by_cases h2 : ms ≤ countKey keys selected
            (fun k => k.pattern) ((keys idx).pattern)
        · rw [if_pos h2] at hjb
          exact hbest j b hjb
        · rw [if_neg h2] at hjb
          cases best with
          | none =>
            simp only [Option.some.injEq, Prod.mk.injEq] at hjb
            obtain ⟨rfl, -⟩ := hjb
            exact ⟨Bool.not_eq_true _ ▸ h1, by omega⟩
          | some pair =>
            obtain ⟨bi, ba⟩ := pair
            dsimp only at hjb
            split at hjb <;> split at hjb <;>
              first
                | (cases hjb
                   exact ⟨Bool.not_eq_true _ ▸ h1, by omega⟩)
                | (cases hjb
                   exact hbest _ _ rfl)
  intro i a h
  exact key (List.range scored.length) none (by intro j b hjb; cases hjb)
    i a h

/-- Pattern counts stay below the cap throughout the greedy loop. -/
theorem greedyLoop_pattern_cap (scored : List ScoredSentence)
    (keys : ℕ → DivKeys) (ms tpd : ℕ) :
    ∀ (fuel : ℕ) (selected : List ℕ),
      (∀ p, countKey keys selected (fun k => k.pattern) p ≤ ms) →
      ∀ p, countKey keys (greedyLoop scored keys ms tpd fuel selected)
          (fun k => k.pattern) p ≤ ms := by
  intro fuel
  induction fuel with
  | zero => intro selected h p; exact h p
  | succ f ih =>
    intro selected h p
    unfold greedyLoop
    cases hp : pickBest scored keys selected ms tpd with
    | none => exact h p
    | some pair =>
      obtain ⟨i, a⟩ := pair
      have hspec := pickBest_spec scored keys selected ms tpd i a hp
      refine ih (selected ++ [i]) ?_ p
      intro q
      have hsplit : countKey keys (selected ++ [i]) (fun k => k.pattern) q
          = countKey keys selected (fun k => k.pattern) q
            + (if (keys i).pattern = q then 1 else 0) := by
        simp only [countKey, List.filter_append, List.length_append]
        congr 1
        split <;> simp_all
      rw [hsplit]
      by_cases hq : (keys i).pattern = q
      · rw [if_pos hq]
        have := hspec.2
        rw [hq] at this
        omega
      · rw [if_neg hq]
        have := h q
        omega

/-- The pattern key of a candidate index. -/
theorem divKeysOf_pattern (scored : List ScoredSentence) (i : ℕ) :
    (divKeysOf scored i).pattern = get_pattern (scored.getD i default) := rfl

/-- C7: whenever the greedy loop completed all `count` selections (so the
backfill exception did not fire and the pool exceeded `count`), no pattern
key occurs more than `max_similar` times in the diversified output. -/
theorem claim_C7_diversifier_pattern_cap (scored : List ScoredSentence)
    (count max_similar : ℕ) (h1 : count < scored.length)
    (h2 : (greedySelect scored count max_similar).length = count) (p : Str) :
    ((diversify_results scored count max_similar).filter
        (fun s => get_pattern s = p)).length ≤ max_similar := by
  unfold diversify_results
  rw [if_neg (by omega)]
  have hnb : ¬ ((greedySelect scored count max_similar).length < count) := by
    omega
  dsimp only
  rw [if_neg hnb]
  rw [List.filter_map, List.length_map]
  have := greedyLoop_pattern_cap scored (divKeysOf scored) max_similar
    (targetPerDifficulty count) count []
    (by intro q; simp [countKey]) p
  exact this

/-- C7 witness: two candidates, one slot; the greedy loop fills the slot,
so the cap holds with no backfill. -/
theorem claim_C7_diversifier_pattern_cap_witness :
    (1 < ([⟨lit "가 나요", [lit "가"], 2, none, 90, ⟨0, 0, 0, 0, 0⟩⟩,
        ⟨lit "나 다요", [lit "나"], 2, none, 80, ⟨0, 0, 0, 0, 0⟩⟩]
        : List ScoredSentence).length)
    ∧ ((greedySelect
        [⟨lit "가 나요", [lit "가"], 2, none, 90, ⟨0, 0, 0, 0, 0⟩⟩,
         ⟨lit "나 다요", [lit "나"], 2, none, 80, ⟨0, 0, 0, 0, 0⟩⟩] 1 1).length
        = 1)
    ∧ ((diversify_results
        [⟨lit "가 나요", [lit "가"], 2, none, 90, ⟨0, 0, 0, 0, 0⟩⟩,
         ⟨lit "나 다요", [lit "나"], 2, none, 80, ⟨0, 0, 0, 0, 0⟩⟩] 1 1).filter
          (fun s => get_pattern s = lit "가")).length ≤ 1 := by
  have h2 : (greedySelect
      [⟨lit "가 나요", [lit "가"], 2, none, 90, ⟨0, 0, 0, 0, 0⟩⟩,
       ⟨lit "나 다요", [lit "나"], 2, none, 80, ⟨0, 0, 0, 0, 0⟩⟩] 1 1).length
      = 1 := by
    norm_num [greedySelect, greedyLoop, pickBest, targetPerDifficulty,
      countKey, List.range_succ]
  refine ⟨by decide, h2, ?_⟩
  exact claim_C7_diversifier_pattern_cap _ 1 1 (by decide) h2 (lit "가")

end ClaimC7

end Langth
